import Mathlib

/-!
Verification development for the Ghoul GLSL shader preprocessor
(src/src/opengl/shaderpreprocessor.cpp).  Strings are modelled as `List Char`,
std::string positions as `Nat`, and `npos` results as `Option Nat`.  The
`Dictionary` collaborator (declared in a header that is not part of the
sources) is modelled from the spec, section 3 and 6: a hierarchical,
insertion-ordered string-keyed store whose dotted-path operations traverse
nested dictionaries.  Throwing C++ code is modelled with `Except` / an
explicit error result; exceptions keep the mutated object state, which the
state monad below reproduces.
-/

/-- Whitespace set used by the preprocessor helpers (source line 50). -/
def wsChars : List Char := [' ', '\n', '\r', '\t']

/-- Opening curly brace character, kept as a named constant. -/
def lbrace : Char := Char.ofNat 123

/-- Closing curly brace character, kept as a named constant. -/
def rbrace : Char := Char.ofNat 125

/-- Token opener scanned for by substituteLine: a hash followed by an opening brace. -/
def hashOpen : List Char := ['#', lbrace]

/-- Model of std::string::find_first_not_of over a whole string. -/
def findFirstNotOf (bad : List Char) : List Char → Option Nat
  | [] => none
  | c :: rest => if c ∈ bad then (findFirstNotOf bad rest).map Nat.succ else some 0

/-- Model of std::string::find_first_of over a whole string. -/
def findFirstOf (good : List Char) : List Char → Option Nat
  | [] => none
  | c :: rest => if c ∈ good then some 0 else (findFirstOf good rest).map Nat.succ

/-- Model of std::string::find_last_not_of, derived from the reversed string. -/
def findLastNotOf (bad : List Char) (s : List Char) : Option Nat :=
  (findFirstNotOf bad s.reverse).map (fun i => s.length - 1 - i)

/-- Model of std::string::find for a single character. -/
def findCharIdx (c : Char) : List Char → Option Nat
  | [] => none
  | x :: rest => if x = c then some 0 else (findCharIdx c rest).map Nat.succ

/-- Model of std::string::find for a pattern (first occurrence). -/
def findSubIdx (pat : List Char) : List Char → Option Nat
  | [] => if pat.isPrefixOf [] then some 0 else none
  | c :: rest =>
    if pat.isPrefixOf (c :: rest) then some 0 else (findSubIdx pat rest).map Nat.succ

/-- Helper for the std::string::rfind model: searches indices n, n-1, ..., 0. -/
def rfindAux (pat s : List Char) : Nat → Option Nat
  | 0 => if pat.isPrefixOf s then some 0 else none
  | n + 1 => if pat.isPrefixOf (s.drop (n + 1)) then some (n + 1) else rfindAux pat s n

/-- Model of std::string::rfind for a pattern: index of the last occurrence. -/
def rfindSub (pat s : List Char) : Option Nat := rfindAux pat s s.length

/-- Decides whether a pattern occurs anywhere in a string (contiguously). -/
def containsSub (pat : List Char) : List Char → Bool
  | [] => pat.isPrefixOf []
  | c :: rest => pat.isPrefixOf (c :: rest) || containsSub pat rest

/-- Model of the file-local trim helper (source lines 47-71): returns the
removed leading whitespace (the recorded indentation) together with the
trimmed line.  Note the faithful quirk: on an all-whitespace string
find_last_not_of yields npos, endPos becomes the length, and the whole
string is returned unchanged. -/
def trimF (s : List Char) : List Char × List Char :=
  let startPos := (findFirstNotOf wsChars s).getD 0
  let endPos :=
    match findLastNotOf wsChars s with
    | none => s.length
    | some e => e + 1
  (s.take startPos, (s.drop startPos).take (endPos - startPos))

/-- Model of the file-local isString helper (source lines 43-45): a quoted
string literal of length at least two. -/
def isStringLit (s : List Char) : Bool :=
  decide (s.length > 1) && s.head? == some '\"' && s.getLast? == some '\"'

/-- Digit character for a decimal digit. -/
def digitChar10 (d : Nat) : Char :=
  if d = 0 then '0' else if d = 1 then '1' else if d = 2 then '2'
  else if d = 3 then '3' else if d = 4 then '4' else if d = 5 then '5'
  else if d = 6 then '6' else if d = 7 then '7' else if d = 8 then '8' else '9'

/-- Numeric value of a decimal digit character. -/
def digitVal (c : Char) : Nat :=
  if c = '0' then 0 else if c = '1' then 1 else if c = '2' then 2
  else if c = '3' then 3 else if c = '4' then 4 else if c = '5' then 5
  else if c = '6' then 6 else if c = '7' then 7 else if c = '8' then 8 else 9

/-- Decimal digit characters. -/
def decDigits : List Char := ['0', '1', '2', '3', '4', '5', '6', '7', '8', '9']

/-- Whether a character is a decimal digit. -/
def isDigitChar (c : Char) : Bool := c ∈ decDigits

/-- Fuelled digit expansion of a natural number, most significant digit first. -/
def natToCharsAux : Nat → Nat → List Char
  | 0, _ => []
  | _, 0 => []
  | f + 1, n => natToCharsAux f (n / 10) ++ [digitChar10 (n % 10)]

/-- Model of std::to_string for a natural number. -/
def natToChars (n : Nat) : List Char :=
  if n = 0 then ['0'] else natToCharsAux n n

/-- Model of std::to_string for an int. -/
def intToChars (i : Int) : List Char :=
  if i < 0 then '-' :: natToChars i.natAbs else natToChars i.toNat

/-- Numeric value of a digit string, as accumulated left to right. -/
def charsVal (l : List Char) : Nat := l.foldl (fun a c => 10 * a + digitVal c) 0

/-- Model of the digit part of std::stoi: longest digit run, error if empty. -/
def stoiDigits (l : List Char) : Option Nat :=
  let ds := l.takeWhile isDigitChar
  if ds.isEmpty then none else some (charsVal ds)

/-- Model of std::stoi: skips leading whitespace, accepts an optional sign,
then parses a nonempty digit run; `none` models the thrown
std::invalid_argument. -/
def stoiCore (s : List Char) : Option Int :=
  let s1 := s.dropWhile (fun c => c ∈ wsChars)
  match s1 with
  | '-' :: rest => (stoiDigits rest).map (fun n => -(n : Int))
  | '+' :: rest => (stoiDigits rest).map (fun n => (n : Int))
  | _ => (stoiDigits s1).map (fun n => (n : Int))

/-- Debug location attached to error messages by debugString (source lines
400-408): the path and current line number of the top input, if any. -/
abbrev Dbg := Option (List Char × Nat)

/-- Error values of the preprocessor.  Each constructor models one throw site
and carries exactly the data interpolated into the C++ message. -/
inductive Err where
  | substitutionUnresolved (token : List Char) (dbg : Dbg)
  | substitutionUnsupported (token resolved : List Char) (dbg : Dbg)
  | parserMissingClose (dbg : Dbg)
  | parserUnexpectedEndFor (dbg : Dbg)
  | parserEndForWrongFile (path : List Char) (line : Nat) (dbg : Dbg)
  | parserExpectedIn (dbg : Dbg)
  | parserExpectedRange (dictName : List Char)
  | parserCouldNotParse (path : List Char) (line : Nat)
  | parserEofInFor (path : List Char) (line : Nat) (dbg : Dbg)
  | parserEofForProcess (dbg : Dbg)
  | parserEofScopes (dbg : Dbg)
  | parserExpectedPath (dbg : Dbg)
  | parserExpectedQuoteOrAngle (dbg : Dbg)
  | parserExpectedQuote (dbg : Dbg)
  | parserExpectedAngle (dbg : Dbg)
  | includeError (file : List Char)
  | dictionaryError (key : List Char)
  | stoiError (text : List Char)
  | outOfRange
  | invariantViolation
  | fuelExhausted
deriving DecidableEq

/-- Value stored in a Dictionary.  Modelled from the spec (section 3): the
fixed closed type set boolean, string, integer, floating point, 2/3-component
integer and double vectors, and nested Dictionary.  Floating-point values are
modelled by their integral part (the claims only exercise exact values). -/
inductive Val where
  | vBool (b : Bool)
  | vStr (s : List Char)
  | vInt (n : Int)
  | vDouble (n : Int)
  | vIvec2 (x y : Int)
  | vIvec3 (x y z : Int)
  | vDvec2 (x y : Int)
  | vDvec3 (x y z : Int)
  | vDict (entries : List (List Char × Val))

/-- Dictionary contents: insertion-ordered key/value pairs (spec, section 3:
insertion order is preserved for iteration). -/
abbrev Dict := List (List Char × Val)

/-- Association-list lookup by string key (first match). -/
def assocGet {α : Type} : List (List Char × α) → List Char → Option α
  | [], _ => none
  | (k2, v) :: rest, k => if k2 = k then some v else assocGet rest k

/-- Association-list insert-or-replace, modelling map subscript assignment and
Dictionary::setValue: replaces the first matching key in place, otherwise
appends. -/
def assocSet {α : Type} : List (List Char × α) → List Char → α → List (List Char × α)
  | [], k, v => [(k, v)]
  | (k2, v2) :: rest, k, v =>
    if k2 = k then (k2, v) :: rest else (k2, v2) :: assocSet rest k v

theorem findCharIdx_lt_length {c : Char} : ∀ {s : List Char} {i : Nat},
    findCharIdx c s = some i → i < s.length := by
  intro s
  induction s with
  | nil => intro i h; simp [findCharIdx] at h
  | cons x rest ih =>
    intro i h
    simp only [findCharIdx] at h
    by_cases hx : x = c
    · simp only [if_pos hx, Option.some.injEq] at h
      simp only [List.length_cons]
      omega
    · simp only [if_neg hx, Option.map_eq_some'] at h
      obtain ⟨j, hj, rfl⟩ := h
      have := ih hj
      simp only [List.length_cons]
      omega

/-- Fuelled worker for the dotted-path lookup; the fuel only bounds the
number of dot descents and is immaterial once at least the path length. -/
def lookupPathAux : Nat → Dict → List Char → Option Val
  | fuel, entries, k =>
    match findCharIdx '.' k with
    | none => assocGet entries k
    | some i =>
      match fuel with
      | 0 => none
      | f + 1 =>
        match assocGet entries (k.take i) with
        | some (.vDict d2) => lookupPathAux f d2 (k.drop (i + 1))
        | _ => none

/-- Dotted-path lookup in a Dictionary.  Modelled from the spec (sections 3
and 6): a dotted path a.b.c traverses nested Dictionaries per dot segment. -/
def lookupPath (entries : Dict) (k : List Char) : Option Val :=
  lookupPathAux k.length entries k

theorem lookupPathAux_congr : ∀ (fuel1 fuel2 : Nat) (entries : Dict) (k : List Char),
    k.length ≤ fuel1 → k.length ≤ fuel2 →
    lookupPathAux fuel1 entries k = lookupPathAux fuel2 entries k := by
  intro fuel1
  induction fuel1 using Nat.strong_induction_on with
  | _ fuel1 ih =>
    intro fuel2 entries k h1 h2
    cases hd : findCharIdx '.' k with
    | none =>
      conv_lhs => rw [lookupPathAux]
      conv_rhs => rw [lookupPathAux]
      rw [hd]
    | some i =>
      have hi := findCharIdx_lt_length hd
      obtain ⟨f1, rfl⟩ : ∃ f1, fuel1 = f1 + 1 := ⟨fuel1 - 1, by omega⟩
      obtain ⟨f2, rfl⟩ : ∃ f2, fuel2 = f2 + 1 := ⟨fuel2 - 1, by omega⟩
      conv_lhs => rw [lookupPathAux]
      conv_rhs => rw [lookupPathAux]
      rw [hd]
      show (match assocGet entries (List.take i k) with
            | some (Val.vDict d2) => lookupPathAux f1 d2 (List.drop (i + 1) k)
            | _ => none) =
           (match assocGet entries (List.take i k) with
            | some (Val.vDict d2) => lookupPathAux f2 d2 (List.drop (i + 1) k)
            | _ => none)
      cases hv : assocGet entries (k.take i) with
      | none => rfl
      | some v =>
        cases v
        case vDict d2 =>
          exact ih f1 (by omega) f2 d2 (k.drop (i + 1))
            (by simp only [List.length_drop]; omega)
            (by simp only [List.length_drop]; omega)
        all_goals rfl

/-- Unfolding equation of lookupPath in terms of itself. -/
theorem lookupPath_eq (entries : Dict) (k : List Char) :
    lookupPath entries k =
      (match findCharIdx '.' k with
       | none => assocGet entries k
       | some i =>
         match assocGet entries (k.take i) with
         | some (.vDict d2) => lookupPath d2 (k.drop (i + 1))
         | _ => none) := by
  rw [lookupPath]
  cases hd : findCharIdx '.' k with
  | none =>
    conv_lhs => rw [lookupPathAux]
    rw [hd]
  | some i =>
    have hi := findCharIdx_lt_length hd
    obtain ⟨m, hk⟩ : ∃ m, k.length = m + 1 := ⟨k.length - 1, by omega⟩
    rw [hk]
    conv_lhs => rw [lookupPathAux]
    rw [hd]
    show (match assocGet entries (List.take i k) with
          | some (Val.vDict d2) => lookupPathAux m d2 (List.drop (i + 1) k)
          | _ => none) =
         (match assocGet entries (List.take i k) with
          | some (Val.vDict d2) => lookupPath d2 (List.drop (i + 1) k)
          | _ => none)
    cases hv : assocGet entries (k.take i) with
    | none => rfl
    | some v =>
      cases v
      case vDict d2 =>
        show lookupPathAux m d2 (List.drop (i + 1) k) = lookupPath d2 (List.drop (i + 1) k)
        rw [lookupPath]
        exact lookupPathAux_congr m ((k.drop (i + 1)).length) d2 (k.drop (i + 1))
          (by simp only [List.length_drop]; omega) (Nat.le_refl _)
      all_goals rfl

/-- Type tags for the closed value type set. -/
inductive Ty where
  | tBool | tStr | tInt | tDouble | tIvec2 | tIvec3 | tDvec2 | tDvec3 | tDict
deriving DecidableEq

/-- Type tag of a stored value. -/
def tyOf : Val → Ty
  | .vBool _ => .tBool
  | .vStr _ => .tStr
  | .vInt _ => .tInt
  | .vDouble _ => .tDouble
  | .vIvec2 _ _ => .tIvec2
  | .vIvec3 _ _ _ => .tIvec3
  | .vDvec2 _ _ => .tDvec2
  | .vDvec3 _ _ _ => .tDvec3
  | .vDict _ => .tDict

/-- Modelled from the spec: Dictionary::hasKey with a dotted path (spec,
section 6, existence check by dotted path). -/
def dHasKey (entries : Dict) (k : List Char) : Bool := (lookupPath entries k).isSome

/-- Modelled from the spec: Dictionary::hasValue of a given type with a
dotted path (spec, section 6, typed value fetch by dotted path, against the
tagged-variant value model of section 9). -/
def dHasValue (τ : Ty) (entries : Dict) (k : List Char) : Bool :=
  match lookupPath entries k with
  | some v => tyOf v == τ
  | none => false

/-- Modelled from the spec: Dictionary::value fetch by dotted path. -/
def dValue (entries : Dict) (k : List Char) : Option Val := lookupPath entries k

/-- Modelled from the spec: Dictionary::value of Dictionary type; a lookup
that does not yield a nested Dictionary is a collaborator failure, modelled
as `none`. -/
def dValueDict (entries : Dict) (k : List Char) : Option Dict :=
  match lookupPath entries k with
  | some (.vDict d) => some d
  | _ => none

/-- Translation of the file-local hasKeyRecursive (source lines 96-113):
splits the key at the first dot and descends one level explicitly. -/
def hasKeyRecursive (dictionary : Dict) (key : List Char) : Bool :=
  match findCharIdx '.' key with
  | some i =>
    if dHasKey dictionary (key.take i) then
      match dValueDict dictionary (key.take i) with
      | some d => dHasKey d (key.drop (i + 1))
      | none => false
    else false
  | none => dHasKey dictionary key

/-- Translation of the file-local hasValueRecursive (source lines 115-133). -/
def hasValueRecursive (τ : Ty) (dictionary : Dict) (key : List Char) : Bool :=
  match findCharIdx '.' key with
  | some i =>
    match dValueDict dictionary (key.take i) with
    | some d => dHasValue τ d (key.drop (i + 1))
    | none => false
  | none => dHasValue τ dictionary key

/-- Translation of the file-local valueRecursive (source lines 135-148). -/
def valueRecursive (dictionary : Dict) (key : List Char) : Option Val :=
  match findCharIdx '.' key with
  | some i =>
    match dValueDict dictionary (key.take i) with
    | some d => dValue d (key.drop (i + 1))
    | none => none
  | none => dValue dictionary key

/-- Translation of ShaderPreprocessor::resolveAlias (source lines 434-458).
The alias table maps a name to its stack of bound values; stacks are stored
most-recent-first, so the C++ back() is the list head.  Returns the resolved
name together with the success flag. -/
def resolveAlias (dictionary : Dict) (aliases : List (List Char × List (List Char)))
    (tok : List Char) : List Char × Bool :=
  let (beforeDot, afterDot) :=
    match findCharIdx '.' tok with
    | some i => (tok.take i, tok.drop i)
    | none => (tok, [])
  let beforeDot2 :=
    match assocGet aliases beforeDot with
    | some (v :: _) => v
    | _ => beforeDot
  let out := beforeDot2 ++ afterDot
  (out, (afterDot.isEmpty && isStringLit beforeDot2) || hasKeyRecursive dictionary out)

/-- Alias table type: name to stack of bound values, most recent first. -/
abbrev Aliases := List (List Char × List (List Char))

/-- Rendering of a boolean by std::to_string after integral promotion. -/
def boolToChars (b : Bool) : List Char := if b then ['1'] else ['0']

/-- Rendering of a double by std::to_string, which uses six fixed decimals;
the model carries integral doubles only. -/
def dblToChars (n : Int) : List Char := intToChars n ++ ".000000".toList

/-- Rendering of a two-component integer vector (source line 487). -/
def ivec2Chars (x y : Int) : List Char :=
  "ivec2(".toList ++ intToChars x ++ [','] ++ intToChars y ++ [')']

/-- Rendering of a three-component integer vector (source line 491). -/
def ivec3Chars (x y z : Int) : List Char :=
  "ivec3(".toList ++ intToChars x ++ [','] ++ intToChars y ++ [','] ++ intToChars z ++ [')']

/-- Rendering of a two-component double vector (source line 495); std::format
prints integral doubles without a fractional part. -/
def dvec2Chars (x y : Int) : List Char :=
  "dvec2(".toList ++ intToChars x ++ [','] ++ intToChars y ++ [')']

/-- Rendering of a three-component double vector (source line 499). -/
def dvec3Chars (x y z : Int) : List Char :=
  "dvec3(".toList ++ intToChars x ++ [','] ++ intToChars y ++ [','] ++ intToChars z ++ [')']

/-- Translation of ShaderPreprocessor::substitute (source lines 460-507): the
type-probe chain over the resolved token, in source order. -/
def substituteTok (dictionary : Dict) (aliases : Aliases) (dbg : Dbg)
    (tok : List Char) : Except Err (List Char) :=
  let r := resolveAlias dictionary aliases tok
  let resolved := r.1
  if !r.2 then .error (.substitutionUnresolved tok dbg)
  else if isStringLit resolved then .ok ((resolved.drop 1).take (resolved.length - 2))
  else if hasValueRecursive .tBool dictionary resolved then
    .ok (match valueRecursive dictionary resolved with
         | some (.vBool b) => boolToChars b
         | _ => [])
  else if hasValueRecursive .tStr dictionary resolved then
    .ok (match valueRecursive dictionary resolved with
         | some (.vStr s) => s
         | _ => [])
  else if hasValueRecursive .tInt dictionary resolved then
    .ok (match valueRecursive dictionary resolved with
         | some (.vInt n) => intToChars n
         | _ => [])
  else if hasValueRecursive .tDouble dictionary resolved then
    .ok (match valueRecursive dictionary resolved with
         | some (.vDouble n) => dblToChars n
         | _ => [])
  else if hasValueRecursive .tIvec2 dictionary resolved then
    .ok (match valueRecursive dictionary resolved with
         | some (.vIvec2 x y) => ivec2Chars x y
         | _ => [])
  else if hasValueRecursive .tIvec3 dictionary resolved then
    .ok (match valueRecursive dictionary resolved with
         | some (.vIvec3 x y z) => ivec3Chars x y z
         | _ => [])
  else if hasValueRecursive .tDvec2 dictionary resolved then
    .ok (match valueRecursive dictionary resolved with
         | some (.vDvec2 x y) => dvec2Chars x y
         | _ => [])
  else if hasValueRecursive .tDvec3 dictionary resolved then
    .ok (match valueRecursive dictionary resolved with
         | some (.vDvec3 x y z) => dvec3Chars x y z
         | _ => [])
  else .error (.substitutionUnsupported tok resolved dbg)

/-- Translation of ShaderPreprocessor::substituteLine (source lines 410-432),
parameterised by the token substituter.  Each loop iteration finds the last
occurrence of the token opener via rfind, the next closing brace after it,
substitutes the inner token and splices the result over the whole span, then
re-scans the whole line.  The fuel only bounds the number of splices; a line
without the opener returns immediately. -/
def substituteLineCore (sub : List Char → Except Err (List Char)) (dbg : Dbg) :
    Nat → List Char → Except Err (List Char)
  | fuel, line =>
    match fuel, rfindSub hashOpen line with
    | _, none => .ok line
    | 0, some _ => .error .fuelExhausted
    | f + 1, some beginOffset =>
      match findCharIdx rbrace (line.drop beginOffset) with
      | none => .error (.parserMissingClose dbg)
      | some endOffset =>
        match sub ((line.drop (beginOffset + 2)).take (endOffset - 2)) with
        | .error e => .error e
        | .ok out =>
          substituteLineCore sub dbg f
            (line.take beginOffset ++ out ++
             (line.drop (beginOffset + endOffset + 1)).take
               (line.length - 1 - (beginOffset + endOffset)))

/-- Synthetic dictionary name for a range loop (source line 763). -/
def rangeName (mn mx : Int) : List Char :=
  "(Range ".toList ++ intToChars mn ++ " to ".toList ++ intToChars mx ++ [')']

/-- Translation of ShaderPreprocessor::parseRange (source lines 717-744):
parses min..max and populates a fresh dictionary with keys "1".."max-min+1"
bound to the stringified values min..max. -/
def parseRangeCore (dictionaryName : List Char) : Except Err (Int × Int × Dict) :=
  match findSubIdx ("..".toList) dictionaryName with
  | none => .error (.parserExpectedRange dictionaryName)
  | some minEnd =>
    match stoiCore (dictionaryName.take minEnd) with
    | none => .error (.stoiError (dictionaryName.take minEnd))
    | some minimum =>
      match stoiCore (dictionaryName.drop (minEnd + 2)) with
      | none => .error (.stoiError (dictionaryName.drop (minEnd + 2)))
      | some maximum =>
        let d := (List.range (maximum - minimum + 1).toNat).foldl
          (fun d i => assocSet d (natToChars (i + 1)) (.vStr (intToChars (minimum + i)))) []
        .ok (minimum, maximum, d)

/-- Translation of ShaderPreprocessor::tokenizeFor (source lines 654-715).
Returns `none` when the line is not a #for statement; npos positions that
the C++ code would turn into a throwing substr call are modelled as the
outOfRange error. -/
def tokenizeForCore (line : List Char) (dbg : Dbg) :
    Except Err (Option (List Char × List Char × List Char)) :=
  if line.length < 6 || !(("#for".toList).isPrefixOf line) then .ok none
  else
    match findFirstNotOf wsChars (line.drop 4) with
    | none => .error .outOfRange
    | some keyOffset =>
      let keyPos := 4 + keyOffset
      let (keyName, commaPos) :=
        match findCharIdx ',' (line.drop keyPos) with
        | some commaOffset =>
          ((trimF ((line.drop keyPos).take commaOffset)).2, keyPos + commaOffset)
        | none => ([], keyPos - 1)
      match findFirstNotOf wsChars (line.drop (commaPos + 1)) with
      | none => .error .outOfRange
      | some valueOffset =>
        let valuePos := commaPos + 1 + valueOffset
        match findFirstOf wsChars (line.drop valuePos) with
        | none => .error .outOfRange
        | some wsBeforeInOffset =>
          let wsBeforeInPos := valuePos + wsBeforeInOffset
          let valueName := (trimF ((line.drop valuePos).take wsBeforeInOffset)).2
          match findFirstNotOf wsChars (line.drop wsBeforeInPos) with
          | none => .error .outOfRange
          | some inOffset =>
            let inPos := wsBeforeInPos + inOffset
            if (line.drop inPos).length < 3 || !(("in".toList).isPrefixOf (line.drop inPos)) then
              .error (.parserExpectedIn dbg)
            else
              match findFirstNotOf wsChars (line.drop (inPos + 2)) with
              | none => .error .outOfRange
              | some dictionaryOffset =>
                let dictionaryPos := inPos + 2 + dictionaryOffset
                let dictionaryName :=
                  match findFirstOf wsChars (line.drop dictionaryPos) with
                  | some endOffset => (trimF ((line.drop dictionaryPos).take endOffset)).2
                  | none => (trimF (line.drop dictionaryPos)).2
                .ok (some (keyName, valueName, dictionaryName))

/-- Translation of ShaderPreprocessor::addIncludePath (source lines 254-265):
the process-wide include path list; the ghoul asserts on an empty path or a
non-directory are modelled as errors, and an already-present directory leaves
the list untouched. -/
def addIncludePathF (isDirectory : List Char → Bool)
    (includePaths : List (List Char)) (folderPath : List Char) :
    Except Err (List (List Char)) :=
  if folderPath.isEmpty then .error .invariantViolation
  else if !(isDirectory folderPath) then .error .invariantViolation
  else if folderPath ∈ includePaths then .ok includePaths
  else .ok (includePaths ++ [folderPath])

/-- Input stack entry (spec, section 3, Input; the class header is not among
the sources, so field defaults are modelled from usage).  The stream is
modelled at line granularity: `lines` is the file content, `pos` the cursor
(tellg/seekg exchange this value), `lineNumber` the 1-based number of the
last line read, starting at 0 before any read. -/
structure Input where
  lines : List (List Char)
  pos : Nat
  path : List Char
  lineNumber : Nat
  indentation : List Char
deriving DecidableEq

/-- ForStatement bookkeeping (source lines 799-807): `inputIndex` indexes the
input stack from the bottom, as in the C++ vector. -/
structure ForStatement where
  inputIndex : Nat
  lineNumber : Nat
  streamPos : Nat
  keyName : List Char
  valueName : List Char
  dictionaryReference : List Char
  keyIndex : Int
deriving DecidableEq

/-- Output events.  The C++ code appends text to one stringstream; the model
keeps the emissions structured, in emission order, which the claims consume
directly.  `srcLine` carries the concatenated indentation and the line. -/
inductive OutItem where
  | srcLine (indent line : List Char)
  | lineMarker (lineNumber : Nat) (fileId : Nat) (path : List Char)
  | forLoopComment (ref : List Char)
  | keyComment (key ref : List Char)
  | emptyForComment
  | terminateComment (ref : List Char)
  | versionDirective (v : List Char)
  | osBlock (os : List Char)
deriving DecidableEq

/-- Env of the preprocessor (spec, section 3; header not among the sources).
The stacks keep the most recent element at the head (C++ vector back). -/
structure Env where
  output : List OutItem
  line : List Char
  indentation : List Char
  success : Bool
  inputs : List Input
  scopes : List (List (List Char))
  aliases : Aliases
  forStatements : List ForStatement

/-- Registry entry of the File Identity Registry (FileStruct, with the watch
handle dropped and only the data the claims consume kept). -/
structure FileRec where
  fileIdentifier : Nat
  isTracked : Bool
deriving DecidableEq

/-- Whole preprocessor object state: the members _shaderPath, _dictionary,
_includedFiles (insertion-ordered), the presence of _onChangeCallback, and
the processing environment of the current pass. -/
structure PState where
  shaderPath : List Char
  dictionary : Dict
  includedFiles : List (List Char × FileRec)
  callbackRegistered : Bool
  env : Env

/-- External collaborators of one processing pass: the file system (absolute
path to file lines), the process-wide include paths, the graphics context
version string, the OS name, and path normalisation (absPath). -/
structure Config where
  fs : List (List Char × List (List Char))
  includePaths : List (List Char)
  versionString : List Char
  osName : List Char
  absolutize : List Char → List Char

/-- Result of one monadic step: as with C++ exceptions thrown out of a method,
an error keeps the mutated object state. -/
inductive MRes (α : Type) where
  | ok (a : α) (s : PState)
  | err (e : Err) (s : PState)

/-- State-with-errors monad over the preprocessor object state. -/
def Proc (α : Type) : Type := PState → MRes α

/-- Monadic return. -/
def mpure {α : Type} (a : α) : Proc α := fun s => .ok a s

/-- Monadic bind; errors short-circuit but keep the state. -/
def mbind {α β : Type} (x : Proc α) (f : α → Proc β) : Proc β := fun s =>
  match x s with
  | .ok a s2 => f a s2
  | .err e s2 => .err e s2

instance : Monad Proc where
  pure := mpure
  bind := mbind

/-- Throw, keeping the state. -/
def mthrow {α : Type} (e : Err) : Proc α := fun s => .err e s

/-- Read the whole state. -/
def getS : Proc PState := fun s => .ok s s

/-- Apply a state update. -/
def modifyS (f : PState → PState) : Proc Unit := fun s => .ok () (f s)

/-- Apply an update of the processing environment only. -/
def modifyEnvS (f : Env → Env) : Proc Unit :=
  modifyS (fun s => { s with env := f s.env })

/-- Append one item to the output. -/
def emitS (item : OutItem) : Proc Unit :=
  modifyEnvS (fun e => { e with output := e.output ++ [item] })

theorem bind_eq_mbind {α β : Type} (x : Proc α) (f : α → Proc β) :
    x >>= f = mbind x f := rfl

theorem pure_eq_mpure {α : Type} (a : α) : (pure a : Proc α) = mpure a := rfl

/-- Final state of a run, also after an error (C++ exceptions do not roll
back member mutations). -/
def runState {α : Type} (m : Proc α) (s : PState) : PState :=
  match m s with
  | .ok _ s2 => s2
  | .err _ s2 => s2

/-- Returned value of a successful run. -/
def runVal {α : Type} (m : Proc α) (s : PState) : Option α :=
  match m s with
  | .ok a _ => some a
  | .err _ _ => none

/-- Error of a failed run. -/
def runErr {α : Type} (m : Proc α) (s : PState) : Option Err :=
  match m s with
  | .ok _ _ => none
  | .err e _ => some e

/-- Translation of ShaderPreprocessor::debugString (source lines 400-408). -/
def debugStringF (env : Env) : Dbg :=
  match env.inputs with
  | [] => none
  | inp :: _ => some (inp.path, inp.lineNumber)

/-- Translation of ShaderPreprocessor::addLineNumber (source lines 336-357);
the emitted marker carries the current line number, the registry identifier
and the path.  The Nvidia-only separator string affects only the textual
rendering and is dropped from the structured event. -/
def addLineNumberM : Proc Unit := do
  let s ← getS
  match s.env.inputs with
  | [] => mthrow .invariantViolation
  | inp :: _ =>
    match assocGet s.includedFiles inp.path with
    | none => mthrow .invariantViolation
    | some fr => emitS (.lineMarker inp.lineNumber fr.fileIdentifier inp.path)

/-- Translation of ShaderPreprocessor::isInsideEmptyForStatement (source
lines 359-361). -/
def isInsideEmptyFor (env : Env) : Bool :=
  match env.forStatements with
  | fs :: _ => fs.keyIndex == -1
  | [] => false

/-- Push one value onto a name's alias stack (std::map find / subscript /
push_back); a fresh name is appended to the table. -/
def aliasPush (aliases : Aliases) (k v : List Char) : Aliases :=
  match aliases with
  | [] => [(k, [v])]
  | (k2, st) :: rest =>
    if k2 = k then (k2, v :: st) :: rest else (k2, st) :: aliasPush rest k v

/-- Pop one value from a name's alias stack; a stack emptied by the pop is
erased from the table, and a missing name or empty stack is the assert
violation of popScope, modelled as `none`. -/
def aliasPop (aliases : Aliases) (k : List Char) : Option Aliases :=
  match aliases with
  | [] => none
  | (k2, st) :: rest =>
    if k2 = k then
      match st with
      | [] => none
      | [_] => some rest
      | _ :: st2 => some ((k2, st2) :: rest)
    else (aliasPop rest k).map (fun r => (k2, st) :: r)

/-- Fold of aliasPush over a whole binding table. -/
def pushAll (table : List (List Char × List Char)) (aliases : Aliases) : Aliases :=
  table.foldl (fun a kv => aliasPush a kv.1 kv.2) aliases

/-- Fold of aliasPop over a scope's names. -/
def popAll (aliases : Aliases) : List (List Char) → Option Aliases
  | [] => some aliases
  | k :: rest =>
    match aliasPop aliases k with
    | none => none
    | some a2 => popAll a2 rest

/-- Translation of ShaderPreprocessor::pushScope (source lines 509-523): the
new scope records the table's names, and each binding is pushed onto its
alias stack.  The C++ table is a std::map iterated in key order; the model
keeps the table's list order, which only permutes commuting pushes of
distinct names. -/
def pushScopeCore (table : List (List Char × List Char))
    (scopes : List (List (List Char))) (aliases : Aliases) :
    List (List (List Char)) × Aliases :=
  (table.map Prod.fst :: scopes, pushAll table aliases)

/-- Translation of ShaderPreprocessor::popScope (source lines 525-541):
pops the innermost scope, popping each of its names' alias stacks; `none`
models the ghoul_assert violations (no open scope, name missing, empty
stack). -/
def popScopeCore (scopes : List (List (List Char))) (aliases : Aliases) :
    Option (List (List (List Char)) × Aliases) :=
  match scopes with
  | [] => none
  | sc :: rest => (popAll aliases sc).map (fun a2 => (rest, a2))

/-- Monadic wrapper of pushScope. -/
def pushScopeM (table : List (List Char × List Char)) : Proc Unit :=
  modifyEnvS fun e =>
    let p := pushScopeCore table e.scopes e.aliases
    { e with scopes := p.1, aliases := p.2 }

/-- Monadic wrapper of popScope. -/
def popScopeM : Proc Unit := do
  let s ← getS
  match popScopeCore s.env.scopes s.env.aliases with
  | none => mthrow .invariantViolation
  | some p => modifyEnvS fun e => { e with scopes := p.1, aliases := p.2 }

/-- Monadic wrapper of substituteLine: substitutes every token of the current
line against the current dictionary and alias table. -/
def substituteLineM (fuel : Nat) : Proc Bool := do
  let s ← getS
  match substituteLineCore (substituteTok s.dictionary s.env.aliases (debugStringF s.env))
      (debugStringF s.env) fuel s.env.line with
  | .error e => mthrow e
  | .ok line2 => do
    modifyEnvS (fun e => { e with line := line2 })
    mpure true

/-- Translation of ShaderPreprocessor::parseVersion (source lines 617-624). -/
def parseVersionM (cfg : Config) : Proc Bool := do
  let s ← getS
  if ("#version __CONTEXT__".toList).isPrefixOf s.env.line then do
    emitS (.versionDirective cfg.versionString)
    mpure true
  else mpure false

/-- Translation of ShaderPreprocessor::parseOs (source lines 626-652). -/
def parseOsM (cfg : Config) : Proc Bool := do
  let s ← getS
  if ("#define __OS__".toList).isPrefixOf s.env.line then do
    emitS (.osBlock cfg.osName)
    addLineNumberM
    mpure true
  else mpure false

/-- Access of env.inputs[i] with the C++ bottom-based index against the
head-is-top list. -/
def inputAtIndex (inputs : List Input) (i : Nat) : Option Input :=
  inputs.get? (inputs.length - 1 - i)

/-- Quoted copy of a key, as bound for the loop key name (source line 785). -/
def quoteChars (k : List Char) : List Char := '\"' :: (k ++ ['\"'])

/-- Two-entry binding table of a loop iteration (source lines 785-786 and
852-858): subscript assignment on a std::map, so a repeated name keeps one
entry with the last value. -/
def iterTable (keyName valueName key ref : List Char) :
    List (List Char × List Char) :=
  assocSet (assocSet [] keyName (quoteChars key)) valueName (ref ++ '.' :: key)

/-- Translation of ShaderPreprocessor::parseEndFor (source lines 812-876). -/
def parseEndForM : Proc Bool := do
  let s ← getS
  if decide (s.env.line.length ≤ 6) || !(("#endfor".toList).isPrefixOf s.env.line) then
    mpure false
  else
    match s.env.forStatements with
    | [] => mthrow (.parserUnexpectedEndFor (debugStringF s.env))
    | fs :: restFs =>
      if fs.inputIndex ≠ s.env.inputs.length - 1 then do
        modifyEnvS (fun e => { e with success := false })
        match inputAtIndex s.env.inputs fs.inputIndex with
        | none => mthrow .invariantViolation
        | some forInput =>
          mthrow (.parserEndForWrongFile forInput.path fs.lineNumber (debugStringF s.env))
      else do
        popScopeM
        let fs2 := { fs with keyIndex := fs.keyIndex + 1 }
        modifyEnvS (fun e => { e with forStatements := fs2 :: restFs })
        let s2 ← getS
        match dValueDict s2.dictionary fs2.dictionaryReference with
        | none => mthrow (.dictionaryError fs2.dictionaryReference)
        | some innerDict =>
          let keys := innerDict.map Prod.fst
          if fs2.keyIndex < (keys.length : Int) then
            match keys.get? fs2.keyIndex.toNat with
            | none => mthrow .invariantViolation
            | some key => do
              pushScopeM (iterTable fs2.keyName fs2.valueName key fs2.dictionaryReference)
              emitS (.keyComment key fs2.dictionaryReference)
              addLineNumberM
              modifyEnvS (fun e => { e with inputs :=
                match e.inputs with
                | inp :: r => { inp with pos := fs2.streamPos, lineNumber := fs2.lineNumber } :: r
                | [] => [] })
              mpure true
          else do
            emitS (.terminateComment fs2.dictionaryReference)
            addLineNumberM
            modifyEnvS (fun e => { e with forStatements := restFs })
            mpure true

/-- Fresh ForStatement record pushed by parseFor (source lines 799-807). -/
def mkForStatement (inputsLen : Nat) (input : Input) (keyName valueName ref : List Char)
    (keyIndex : Int) : ForStatement :=
  { inputIndex := inputsLen - 1, lineNumber := input.lineNumber,
    streamPos := input.pos, keyName := keyName, valueName := valueName,
    dictionaryReference := ref, keyIndex := keyIndex }

/-- Translation of ShaderPreprocessor::parseFor (source lines 746-810). -/
def parseForM : Proc Bool := do
  let s ← getS
  match tokenizeForCore s.env.line (debugStringF s.env) with
  | .error e => mthrow e
  | .ok none => mpure false
  | .ok (some (keyName, valueName, dictionaryName0)) => do
    let dictionaryName ←
      if keyName.isEmpty then
        match parseRangeCore dictionaryName0 with
        | .error e => mthrow e
        | .ok (mn, mx, rangeDict) => do
          modifyS (fun st =>
            { st with dictionary := assocSet st.dictionary (rangeName mn mx) (.vDict rangeDict) })
          mpure (rangeName mn mx)
      else mpure dictionaryName0
    let s2 ← getS
    let r := resolveAlias s2.dictionary s2.env.aliases dictionaryName
    if !r.2 then mthrow (.substitutionUnresolved dictionaryName (debugStringF s2.env))
    else
      match dValueDict s2.dictionary r.1 with
      | none => mthrow (.dictionaryError r.1)
      | some innerDictionary =>
        match s2.env.inputs with
        | [] => mthrow .invariantViolation
        | input :: _ =>
          match innerDictionary.map Prod.fst with
          | key0 :: _ => do
            emitS (.forLoopComment r.1)
            emitS (.keyComment key0 r.1)
            addLineNumberM
            pushScopeM (iterTable keyName valueName key0 r.1)
            modifyEnvS (fun e => { e with forStatements := mkForStatement e.inputs.length input keyName valueName r.1 0 :: e.forStatements })
            mpure true
          | [] => do
            emitS .emptyForComment
            pushScopeM []
            modifyEnvS (fun e => { e with forStatements := mkForStatement e.inputs.length input keyName valueName r.1 (-1) :: e.forStatements })
            mpure true

/-- Model of std::filesystem parent_path for the slash-separated paths the
tests use. -/
def parentPath (p : List Char) : List Char :=
  match findCharIdx '/' p.reverse with
  | none => []
  | some i => p.take (p.length - 1 - i)

/-- Model of std::filesystem::path append: an absolute right side replaces
the left, otherwise a separator is inserted when needed. -/
def pathJoin (a b : List Char) : List Char :=
  if b.head? = some '/' then b
  else if a.isEmpty then b
  else if a.getLast? = some '/' then a ++ b
  else a ++ '/' :: b

/-- Existence of a regular file in the modelled file system. -/
def isRegularFile (cfg : Config) (p : List Char) : Bool := (assocGet cfg.fs p).isSome

/-- Model of std::string::find_first_not_of with a start position. -/
def findFirstNotOfFrom (bad : List Char) (s : List Char) (pos : Nat) : Option Nat :=
  (findFirstNotOf bad (s.drop pos)).map (fun i => pos + i)

/-- Model of std::string::find_first_of for one character with a start
position. -/
def findCharIdxFrom (c : Char) (s : List Char) (pos : Nat) : Option Nat :=
  (findCharIdx c (s.drop pos)).map (fun i => pos + i)

/-- Resolution of a quoted include file name (source lines 565-601): first
relative to the including file's directory, then against the include path
list in order, finally as a path usable on its own; `none` is the
IncludeError case. -/
def resolveQuotedInclude (cfg : Config) (parentDir includeFilename : List Char) :
    Option (List Char) :=
  let cand1 := pathJoin parentDir includeFilename
  if isRegularFile cfg cand1 then some cand1
  else
    match cfg.includePaths.find? (fun dir => isRegularFile cfg (pathJoin dir includeFilename)) with
    | some dir => some (pathJoin dir includeFilename)
    | none => if isRegularFile cfg includeFilename then some includeFilename else none

/-- Check at end of an included file (source lines 313-327): an open
ForStatement belonging to the file being drained is an unterminated loop,
reported with the loop's own file and line. -/
def eofForCheckM : Proc Unit := do
  let s ← getS
  match s.env.forStatements with
  | [] => mpure ()
  | fs :: _ =>
    if fs.inputIndex + 1 ≥ s.env.inputs.length then
      match inputAtIndex s.env.inputs fs.inputIndex with
      | none => mthrow .invariantViolation
      | some forInput =>
        mthrow (.parserEofInFor forInput.path fs.lineNumber (debugStringF s.env))
    else mpure ()

/-- Registration step of includeFile (source lines 274-286): a path not yet
in the File Identity Registry is appended with the next identifier, the
current registry size; a registered path leaves the registry untouched. -/
def registerFileM (path : List Char) (trackChanges : Bool) : Proc Unit := do
  let s ← getS
  if (assocGet s.includedFiles path).isNone then
    modifyS (fun st => { st with includedFiles :=
      st.includedFiles ++ [(path, { fileIdentifier := st.includedFiles.length,
                                    isTracked := trackChanges })] })
  else mpure ()

/-- Steps of includeFile before the read loop (source lines 274-302):
registration, pushing the new input with the inherited indentation, and the
synchronising line marker for non-root files. -/
def includeFilePre (path : List Char) (trackChanges : Bool)
    (lines : List (List Char)) : Proc Unit := do
  registerFileM path trackChanges
  let s1 ← getS
  let prevIndent :=
    match s1.env.inputs with
    | inp :: _ => inp.indentation
    | [] => []
  modifyEnvS (fun e => { e with inputs :=
    { lines := lines, pos := 0, path := path, lineNumber := 0,
      indentation := prevIndent ++ e.indentation } :: e.inputs })
  let s2 ← getS
  if s2.env.inputs.length > 1 then addLineNumberM else mpure ()

/-- Steps of includeFile after the read loop (source lines 313-333): the
unterminated-for check, popping the drained input, and the resynchronising
line marker for the parent file. -/
def includeFilePost : Proc Bool := do
  eofForCheckM
  modifyEnvS (fun e => { e with inputs := e.inputs.tail })
  let s3 ← getS
  let _ ← if !s3.env.inputs.isEmpty then addLineNumberM else mpure ()
  mpure true

/-- Call tags of the four mutually recursive scanning routines; the machine
is presented as a fuel-indexed fixpoint of one step functional so that runs
are cheap to evaluate. -/
inductive MCall where
  | pline
  | pinclude
  | plines (path : List Char)
  | pincludeFile (path : List Char) (track : Bool)

/-- Step functional of the line scanner.  `n` is the remaining fuel (used
only for the substitution loop bound), `recurse` runs a nested call at the
next lower fuel level.  The Unit-returning routines of the C++ code
(parseLines and includeFile) report `true`. -/
def machineStep (cfg : Config) (n : Nat) (recurse : MCall → Proc Bool) : MCall → Proc Bool
  | .pline => do
    -- Translation of ShaderPreprocessor::parseLine (source lines 363-398).
    let s ← getS
    match s.env.inputs with
    | [] => mthrow .invariantViolation
    | inp :: restInputs =>
      match inp.lines.get? inp.pos with
      | none => mpure false
      | some raw => do
        modifyEnvS (fun e => { e with
          inputs := { inp with pos := inp.pos + 1, lineNumber := inp.lineNumber + 1 } :: restInputs,
          line := (trimF raw).2,
          indentation := (trimF raw).1 })
        let isSpecial1 ← parseEndForM
        let s2 ← getS
        if isInsideEmptyFor s2.env then mpure true
        else do
          let _ ← substituteLineM n
          let isSpecial ←
            if isSpecial1 then mpure true
            else do
              let v ← parseVersionM cfg
              if v then mpure true
              else do
                let o ← parseOsM cfg
                if o then mpure true
                else do
                  let i ← recurse .pinclude
                  if i then mpure true else parseForM
          if isSpecial then mpure true
          else do
            let s3 ← getS
            match s3.env.inputs with
            | [] => mthrow .invariantViolation
            | inp2 :: _ => do
              emitS (.srcLine (inp2.indentation ++ s3.env.indentation) s3.env.line)
              mpure true
  | .pinclude => do
    -- Translation of ShaderPreprocessor::parseInclude (source lines 543-615).
    let s ← getS
    let line := s.env.line
    let tracks := (findSubIdx (":notrack".toList) line).isNone
    if !(("#include".toList).isPrefixOf line) then mpure false
    else
      match findFirstNotOfFrom wsChars line 8 with
      | none => mthrow (.parserExpectedPath (debugStringF s.env))
      | some p1 =>
        match line.get? p1 with
        | none => mthrow .invariantViolation
        | some c1 =>
          if c1 = '\"' then
            match findCharIdxFrom '\"' line (p1 + 1) with
            | none => mthrow (.parserExpectedQuote (debugStringF s.env))
            | some p2 =>
              let includeFilename := (line.drop (p1 + 1)).take (p2 - p1 - 1)
              match s.env.inputs with
              | [] => mthrow .invariantViolation
              | inp :: _ =>
                match resolveQuotedInclude cfg (parentPath inp.path) includeFilename with
                | none => mthrow (.includeError includeFilename)
                | some includeFilepath => do
                  let _ ← recurse (.pincludeFile (cfg.absolutize includeFilepath) tracks)
                  mpure true
          else if c1 = '<' then
            match findCharIdxFrom '>' line (p1 + 1) with
            | none => mthrow (.parserExpectedAngle (debugStringF s.env))
            | some p2 => do
              let _ ← recurse (.pincludeFile
                (cfg.absolutize ((line.drop (p1 + 1)).take (p2 - p1 - 1))) tracks)
              mpure true
          else mthrow (.parserExpectedQuoteOrAngle (debugStringF s.env))
  | .plines path => do
    -- Read loop of includeFile (source lines 304-311).
    let b ← recurse .pline
    if b then do
      let s ← getS
      if !s.env.success then
        match s.env.inputs with
        | [] => mthrow .invariantViolation
        | inp :: _ => mthrow (.parserCouldNotParse path inp.lineNumber)
      else recurse (.plines path)
    else mpure true
  | .pincludeFile path trackChanges => do
    -- Translation of ShaderPreprocessor::includeFile (source lines 267-334).
    if path.isEmpty then mthrow .invariantViolation
    else
      match assocGet cfg.fs path with
      | none => mthrow .invariantViolation
      | some lines => do
        includeFilePre path trackChanges lines
        let _ ← recurse (.plines path)
        includeFilePost

/-- Fuel-indexed machine: runs one call, descending one fuel level at every
nested call; exhausted fuel is the model artifact for divergence. -/
def machineRun (cfg : Config) : Nat → MCall → Proc Bool
  | 0, _ => mthrow .fuelExhausted
  | n + 1, c => machineStep cfg n (machineRun cfg n) c

/-- Translation of ShaderPreprocessor::parseLine (source lines 363-398), as
a fuelled run. -/
def parseLineM (cfg : Config) (n : Nat) : Proc Bool := machineRun cfg n .pline

/-- Translation of ShaderPreprocessor::parseInclude (source lines 543-615),
as a fuelled run. -/
def parseIncludeM (cfg : Config) (n : Nat) : Proc Bool := machineRun cfg n .pinclude

/-- Read loop of includeFile (source lines 304-311), as a fuelled run. -/
def parseLinesM (cfg : Config) (path : List Char) (n : Nat) : Proc Unit := do
  let _ ← machineRun cfg n (.plines path)
  mpure ()

/-- Translation of ShaderPreprocessor::includeFile (source lines 267-334),
as a fuelled run. -/
def includeFileM (cfg : Config) (n : Nat) (path : List Char) (track : Bool) : Proc Unit := do
  let _ ← machineRun cfg n (.pincludeFile path track)
  mpure ()

/-- Fresh environment constructed at the top of process (source lines
218-219; field defaults modelled from the spec and usage). -/
def emptyEnv : Env :=
  { output := [], line := [], indentation := [], success := true,
    inputs := [], scopes := [], aliases := [], forStatements := [] }

/-- Translation of ShaderPreprocessor::process (source lines 217-235):
builds a fresh environment, drains the root file, and reports a still-open
ForStatement or Scope as a ParserError; the output exists only on success. -/
def processM (cfg : Config) (fuel : Nat) : Proc (List OutItem) := do
  modifyS (fun st => { st with env := emptyEnv })
  let s0 ← getS
  includeFileM cfg fuel (cfg.absolutize s0.shaderPath) true
  let s ← getS
  if !s.env.forStatements.isEmpty then mthrow (.parserEofForProcess (debugStringF s.env))
  else if !s.env.scopes.isEmpty then mthrow (.parserEofScopes (debugStringF s.env))
  else mpure s.env.output

/-- Translation of ShaderPreprocessor::setDictionary (source lines 193-198):
stores the dictionary and invokes the callback whenever one is registered,
without comparing old and new dictionary.  The boolean reports whether the
callback was invoked. -/
def setDictionaryF (st : PState) (d : Dict) : PState × Bool :=
  ({ st with dictionary := d }, st.callbackRegistered)

/-- Translation of ShaderPreprocessor::setFilename (source lines 204-211):
stores the path and invokes the callback only when the path changed and a
callback is registered. -/
def setFilenameF (st : PState) (p : List Char) : PState × Bool :=
  if st.shaderPath ≠ p then ({ st with shaderPath := p }, st.callbackRegistered)
  else (st, false)

/-- Plain source lines of an output event list, in order. -/
def srcLines (out : List OutItem) : List (List Char) :=
  out.filterMap fun item =>
    match item with
    | .srcLine _ l => some l
    | _ => none

theorem mbind_ok {α β : Type} (x : Proc α) (f : α → Proc β) (s : PState) (a : α) (s2 : PState)
    (h : x s = .ok a s2) : (mbind x f) s = f a s2 := by
  show (match x s with
        | MRes.ok a s2 => f a s2
        | MRes.err e s2 => MRes.err e s2) = f a s2
  rw [h]

theorem mbind_err {α β : Type} (x : Proc α) (f : α → Proc β) (s : PState) (e : Err) (s2 : PState)
    (h : x s = .err e s2) : (mbind x f) s = .err e s2 := by
  show (match x s with
        | MRes.ok a s2 => f a s2
        | MRes.err e s2 => MRes.err e s2) = MRes.err e s2
  rw [h]

theorem machineRun_succ (cfg : Config) (n : Nat) (c : MCall) :
    machineRun cfg (n + 1) c = machineStep cfg n (machineRun cfg n) c := rfl

theorem machineRun_plines_step (cfg : Config) (p : List Char) (n : Nat) (s s2 : PState)
    (h : machineRun cfg n .pline s = .ok true s2) (hs : s2.env.success = true) :
    machineRun cfg (n + 1) (.plines p) s = machineRun cfg n (.plines p) s2 := by
  rw [machineRun_succ]
  show (mbind (machineRun cfg n .pline) _) s = _
  rw [mbind]
  rw [h]
  simp [bind_eq_mbind, mbind, getS, mpure, hs]

theorem machineRun_plines_done (cfg : Config) (p : List Char) (n : Nat) (s s2 : PState)
    (h : machineRun cfg n .pline s = .ok false s2) :
    machineRun cfg (n + 1) (.plines p) s = .ok true s2 := by
  rw [machineRun_succ]
  show (mbind (machineRun cfg n .pline) _) s = _
  rw [mbind]
  rw [h]
  simp [mpure]

theorem machineRun_pincludeFile_split (cfg : Config) (n : Nat) (p : List Char) (t : Bool)
    (lines : List (List Char)) (hne : p.isEmpty = false) (hfs : assocGet cfg.fs p = some lines) :
    machineRun cfg (n + 1) (.pincludeFile p t) =
      mbind (includeFilePre p t lines)
        (fun _ => mbind (machineRun cfg n (.plines p)) (fun _ => includeFilePost)) := by
  funext s
  rw [machineRun_succ]
  show (if p.isEmpty = true then mthrow Err.invariantViolation else
    match assocGet cfg.fs p with
    | none => mthrow Err.invariantViolation
    | some lines => mbind (includeFilePre p t lines)
        (fun _ => mbind (machineRun cfg n (.plines p)) (fun _ => includeFilePost))) s = _
  rw [hne, hfs]
  simp

theorem processM_ok (cfg : Config) (fuel : Nat) (s : PState) (b : Bool) (s2 : PState)
    (h : machineRun cfg fuel (.pincludeFile (cfg.absolutize s.shaderPath) true) { s with env := emptyEnv } = .ok b s2)
    (h1 : s2.env.forStatements.isEmpty = true) (h2 : s2.env.scopes.isEmpty = true) :
    processM cfg fuel s = .ok s2.env.output s2 := by
  simp only [processM, includeFileM, bind_eq_mbind, mbind, modifyS, getS, mpure, h, h1, h2,
    Bool.not_true, Bool.false_eq_true, if_false, mthrow]

theorem processM_err (cfg : Config) (fuel : Nat) (s : PState) (e : Err) (s2 : PState)
    (h : machineRun cfg fuel (.pincludeFile (cfg.absolutize s.shaderPath) true) { s with env := emptyEnv } = .err e s2) :
    processM cfg fuel s = .err e s2 := by
  simp only [processM, includeFileM, bind_eq_mbind, mbind, modifyS, getS, mpure, h]

def tokLine4 : List Char := ['#', lbrace, 'i', rbrace]

def cfg4 : Config :=
  { fs := [( "/d/r.glsl".toList, [ "#for i in 3..5".toList, tokLine4, "#endfor".toList ] )],
    includePaths := [], versionString := [], osName := [], absolutize := id }

def st4 : PState :=
  { shaderPath := "/d/r.glsl".toList, dictionary := [], includedFiles := [],
    callbackRegistered := false, env := emptyEnv }

def root4 : List Char := "/d/r.glsl".toList

def lines4 : List (List Char) := [ "#for i in 3..5".toList, tokLine4, "#endfor".toList ]

def stA : PState := { shaderPath := "/d/r.glsl".toList, dictionary := [], includedFiles := [("/d/r.glsl".toList, { fileIdentifier := 0, isTracked := true })], callbackRegistered := false, env := { output := [], line := "".toList, indentation := "".toList, success := true, inputs := [{ lines := ["#for i in 3..5".toList, ['#', lbrace, 'i', rbrace], "#endfor".toList], pos := 0, path := "/d/r.glsl".toList, lineNumber := 0, indentation := "".toList }], scopes := [], aliases := [], forStatements := [] } }
def stB : PState := { shaderPath := "/d/r.glsl".toList, dictionary := [("(Range 3 to 5)".toList, Val.vDict ([("1".toList, Val.vStr ("3".toList)), ("2".toList, Val.vStr ("4".toList)), ("3".toList, Val.vStr ("5".toList))]))], includedFiles := [("/d/r.glsl".toList, { fileIdentifier := 0, isTracked := true })], callbackRegistered := false, env := { output := [OutItem.forLoopComment ("(Range 3 to 5)".toList), OutItem.keyComment ("1".toList) ("(Range 3 to 5)".toList), OutItem.lineMarker 1 0 ("/d/r.glsl".toList)], line := "#for i in 3..5".toList, indentation := "".toList, success := true, inputs := [{ lines := ["#for i in 3..5".toList, ['#', lbrace, 'i', rbrace], "#endfor".toList], pos := 1, path := "/d/r.glsl".toList, lineNumber := 1, indentation := "".toList }], scopes := [["".toList, "i".toList]], aliases := [("".toList, [['\"', '1', '\"']]), ("i".toList, ["(Range 3 to 5).1".toList])], forStatements := [{ inputIndex := 0, lineNumber := 1, streamPos := 1, keyName := "".toList, valueName := "i".toList, dictionaryReference := "(Range 3 to 5)".toList, keyIndex := (0 : Int) }] } }
def stC : PState := { shaderPath := "/d/r.glsl".toList, dictionary := [("(Range 3 to 5)".toList, Val.vDict ([("1".toList, Val.vStr ("3".toList)), ("2".toList, Val.vStr ("4".toList)), ("3".toList, Val.vStr ("5".toList))]))], includedFiles := [("/d/r.glsl".toList, { fileIdentifier := 0, isTracked := true })], callbackRegistered := false, env := { output := [OutItem.forLoopComment ("(Range 3 to 5)".toList), OutItem.keyComment ("1".toList) ("(Range 3 to 5)".toList), OutItem.lineMarker 1 0 ("/d/r.glsl".toList), OutItem.srcLine ("".toList) ("3".toList)], line := "3".toList, indentation := "".toList, success := true, inputs := [{ lines := ["#for i in 3..5".toList, ['#', lbrace, 'i', rbrace], "#endfor".toList], pos := 2, path := "/d/r.glsl".toList, lineNumber := 2, indentation := "".toList }], scopes := [["".toList, "i".toList]], aliases := [("".toList, [['\"', '1', '\"']]), ("i".toList, ["(Range 3 to 5).1".toList])], forStatements := [{ inputIndex := 0, lineNumber := 1, streamPos := 1, keyName := "".toList, valueName := "i".toList, dictionaryReference := "(Range 3 to 5)".toList, keyIndex := (0 : Int) }] } }
def stD : PState := { shaderPath := "/d/r.glsl".toList, dictionary := [("(Range 3 to 5)".toList, Val.vDict ([("1".toList, Val.vStr ("3".toList)), ("2".toList, Val.vStr ("4".toList)), ("3".toList, Val.vStr ("5".toList))]))], includedFiles := [("/d/r.glsl".toList, { fileIdentifier := 0, isTracked := true })], callbackRegistered := false, env := { output := [OutItem.forLoopComment ("(Range 3 to 5)".toList), OutItem.keyComment ("1".toList) ("(Range 3 to 5)".toList), OutItem.lineMarker 1 0 ("/d/r.glsl".toList), OutItem.srcLine ("".toList) ("3".toList), OutItem.keyComment ("2".toList) ("(Range 3 to 5)".toList), OutItem.lineMarker 3 0 ("/d/r.glsl".toList)], line := "#endfor".toList, indentation := "".toList, success := true, inputs := [{ lines := ["#for i in 3..5".toList, ['#', lbrace, 'i', rbrace], "#endfor".toList], pos := 1, path := "/d/r.glsl".toList, lineNumber := 1, indentation := "".toList }], scopes := [["".toList, "i".toList]], aliases := [("".toList, [['\"', '2', '\"']]), ("i".toList, ["(Range 3 to 5).2".toList])], forStatements := [{ inputIndex := 0, lineNumber := 1, streamPos := 1, keyName := "".toList, valueName := "i".toList, dictionaryReference := "(Range 3 to 5)".toList, keyIndex := (1 : Int) }] } }
def stE : PState := { shaderPath := "/d/r.glsl".toList, dictionary := [("(Range 3 to 5)".toList, Val.vDict ([("1".toList, Val.vStr ("3".toList)), ("2".toList, Val.vStr ("4".toList)), ("3".toList, Val.vStr ("5".toList))]))], includedFiles := [("/d/r.glsl".toList, { fileIdentifier := 0, isTracked := true })], callbackRegistered := false, env := { output := [OutItem.forLoopComment ("(Range 3 to 5)".toList), OutItem.keyComment ("1".toList) ("(Range 3 to 5)".toList), OutItem.lineMarker 1 0 ("/d/r.glsl".toList), OutItem.srcLine ("".toList) ("3".toList), OutItem.keyComment ("2".toList) ("(Range 3 to 5)".toList), OutItem.lineMarker 3 0 ("/d/r.glsl".toList), OutItem.srcLine ("".toList) ("4".toList)], line := "4".toList, indentation := "".toList, success := true, inputs := [{ lines := ["#for i in 3..5".toList, ['#', lbrace, 'i', rbrace], "#endfor".toList], pos := 2, path := "/d/r.glsl".toList, lineNumber := 2, indentation := "".toList }], scopes := [["".toList, "i".toList]], aliases := [("".toList, [['\"', '2', '\"']]), ("i".toList, ["(Range 3 to 5).2".toList])], forStatements := [{ inputIndex := 0, lineNumber := 1, streamPos := 1, keyName := "".toList, valueName := "i".toList, dictionaryReference := "(Range 3 to 5)".toList, keyIndex := (1 : Int) }] } }
def stF : PState := { shaderPath := "/d/r.glsl".toList, dictionary := [("(Range 3 to 5)".toList, Val.vDict ([("1".toList, Val.vStr ("3".toList)), ("2".toList, Val.vStr ("4".toList)), ("3".toList, Val.vStr ("5".toList))]))], includedFiles := [("/d/r.glsl".toList, { fileIdentifier := 0, isTracked := true })], callbackRegistered := false, env := { output := [OutItem.forLoopComment ("(Range 3 to 5)".toList), OutItem.keyComment ("1".toList) ("(Range 3 to 5)".toList), OutItem.lineMarker 1 0 ("/d/r.glsl".toList), OutItem.srcLine ("".toList) ("3".toList), OutItem.keyComment ("2".toList) ("(Range 3 to 5)".toList), OutItem.lineMarker 3 0 ("/d/r.glsl".toList), OutItem.srcLine ("".toList) ("4".toList), OutItem.keyComment ("3".toList) ("(Range 3 to 5)".toList), OutItem.lineMarker 3 0 ("/d/r.glsl".toList)], line := "#endfor".toList, indentation := "".toList, success := true, inputs := [{ lines := ["#for i in 3..5".toList, ['#', lbrace, 'i', rbrace], "#endfor".toList], pos := 1, path := "/d/r.glsl".toList, lineNumber := 1, indentation := "".toList }], scopes := [["".toList, "i".toList]], aliases := [("".toList, [['\"', '3', '\"']]), ("i".toList, ["(Range 3 to 5).3".toList])], forStatements := [{ inputIndex := 0, lineNumber := 1, streamPos := 1, keyName := "".toList, valueName := "i".toList, dictionaryReference := "(Range 3 to 5)".toList, keyIndex := (2 : Int) }] } }
def stG : PState := { shaderPath := "/d/r.glsl".toList, dictionary := [("(Range 3 to 5)".toList, Val.vDict ([("1".toList, Val.vStr ("3".toList)), ("2".toList, Val.vStr ("4".toList)), ("3".toList, Val.vStr ("5".toList))]))], includedFiles := [("/d/r.glsl".toList, { fileIdentifier := 0, isTracked := true })], callbackRegistered := false, env := { output := [OutItem.forLoopComment ("(Range 3 to 5)".toList), OutItem.keyComment ("1".toList) ("(Range 3 to 5)".toList), OutItem.lineMarker 1 0 ("/d/r.glsl".toList), OutItem.srcLine ("".toList) ("3".toList), OutItem.keyComment ("2".toList) ("(Range 3 to 5)".toList), OutItem.lineMarker 3 0 ("/d/r.glsl".toList), OutItem.srcLine ("".toList) ("4".toList), OutItem.keyComment ("3".toList) ("(Range 3 to 5)".toList), OutItem.lineMarker 3 0 ("/d/r.glsl".toList), OutItem.srcLine ("".toList) ("5".toList)], line := "5".toList, indentation := "".toList, success := true, inputs := [{ lines := ["#for i in 3..5".toList, ['#', lbrace, 'i', rbrace], "#endfor".toList], pos := 2, path := "/d/r.glsl".toList, lineNumber := 2, indentation := "".toList }], scopes := [["".toList, "i".toList]], aliases := [("".toList, [['\"', '3', '\"']]), ("i".toList, ["(Range 3 to 5).3".toList])], forStatements := [{ inputIndex := 0, lineNumber := 1, streamPos := 1, keyName := "".toList, valueName := "i".toList, dictionaryReference := "(Range 3 to 5)".toList, keyIndex := (2 : Int) }] } }
def stH : PState := { shaderPath := "/d/r.glsl".toList, dictionary := [("(Range 3 to 5)".toList, Val.vDict ([("1".toList, Val.vStr ("3".toList)), ("2".toList, Val.vStr ("4".toList)), ("3".toList, Val.vStr ("5".toList))]))], includedFiles := [("/d/r.glsl".toList, { fileIdentifier := 0, isTracked := true })], callbackRegistered := false, env := { output := [OutItem.forLoopComment ("(Range 3 to 5)".toList), OutItem.keyComment ("1".toList) ("(Range 3 to 5)".toList), OutItem.lineMarker 1 0 ("/d/r.glsl".toList), OutItem.srcLine ("".toList) ("3".toList), OutItem.keyComment ("2".toList) ("(Range 3 to 5)".toList), OutItem.lineMarker 3 0 ("/d/r.glsl".toList), OutItem.srcLine ("".toList) ("4".toList), OutItem.keyComment ("3".toList) ("(Range 3 to 5)".toList), OutItem.lineMarker 3 0 ("/d/r.glsl".toList), OutItem.srcLine ("".toList) ("5".toList), OutItem.terminateComment ("(Range 3 to 5)".toList), OutItem.lineMarker 3 0 ("/d/r.glsl".toList)], line := "#endfor".toList, indentation := "".toList, success := true, inputs := [{ lines := ["#for i in 3..5".toList, ['#', lbrace, 'i', rbrace], "#endfor".toList], pos := 3, path := "/d/r.glsl".toList, lineNumber := 3, indentation := "".toList }], scopes := [], aliases := [], forStatements := [] } }
def stI : PState := { shaderPath := "/d/r.glsl".toList, dictionary := [("(Range 3 to 5)".toList, Val.vDict ([("1".toList, Val.vStr ("3".toList)), ("2".toList, Val.vStr ("4".toList)), ("3".toList, Val.vStr ("5".toList))]))], includedFiles := [("/d/r.glsl".toList, { fileIdentifier := 0, isTracked := true })], callbackRegistered := false, env := { output := [OutItem.forLoopComment ("(Range 3 to 5)".toList), OutItem.keyComment ("1".toList) ("(Range 3 to 5)".toList), OutItem.lineMarker 1 0 ("/d/r.glsl".toList), OutItem.srcLine ("".toList) ("3".toList), OutItem.keyComment ("2".toList) ("(Range 3 to 5)".toList), OutItem.lineMarker 3 0 ("/d/r.glsl".toList), OutItem.srcLine ("".toList) ("4".toList), OutItem.keyComment ("3".toList) ("(Range 3 to 5)".toList), OutItem.lineMarker 3 0 ("/d/r.glsl".toList), OutItem.srcLine ("".toList) ("5".toList), OutItem.terminateComment ("(Range 3 to 5)".toList), OutItem.lineMarker 3 0 ("/d/r.glsl".toList)], line := "#endfor".toList, indentation := "".toList, success := true, inputs := [{ lines := ["#for i in 3..5".toList, ['#', lbrace, 'i', rbrace], "#endfor".toList], pos := 3, path := "/d/r.glsl".toList, lineNumber := 3, indentation := "".toList }], scopes := [], aliases := [], forStatements := [] } }
def stJ : PState := { shaderPath := "/d/r.glsl".toList, dictionary := [("(Range 3 to 5)".toList, Val.vDict ([("1".toList, Val.vStr ("3".toList)), ("2".toList, Val.vStr ("4".toList)), ("3".toList, Val.vStr ("5".toList))]))], includedFiles := [("/d/r.glsl".toList, { fileIdentifier := 0, isTracked := true })], callbackRegistered := false, env := { output := [OutItem.forLoopComment ("(Range 3 to 5)".toList), OutItem.keyComment ("1".toList) ("(Range 3 to 5)".toList), OutItem.lineMarker 1 0 ("/d/r.glsl".toList), OutItem.srcLine ("".toList) ("3".toList), OutItem.keyComment ("2".toList) ("(Range 3 to 5)".toList), OutItem.lineMarker 3 0 ("/d/r.glsl".toList), OutItem.srcLine ("".toList) ("4".toList), OutItem.keyComment ("3".toList) ("(Range 3 to 5)".toList), OutItem.lineMarker 3 0 ("/d/r.glsl".toList), OutItem.srcLine ("".toList) ("5".toList), OutItem.terminateComment ("(Range 3 to 5)".toList), OutItem.lineMarker 3 0 ("/d/r.glsl".toList)], line := "#endfor".toList, indentation := "".toList, success := true, inputs := [], scopes := [], aliases := [], forStatements := [] } }


theorem c4_pre : includeFilePre root4 true lines4 { st4 with env := emptyEnv } = .ok () stA := by rfl
theorem c4_b : machineRun cfg4 23 .pline stA = .ok true stB := by rfl
theorem c4_c : machineRun cfg4 22 .pline stB = .ok true stC := by rfl
theorem c4_d : machineRun cfg4 21 .pline stC = .ok true stD := by rfl
theorem c4_e : machineRun cfg4 20 .pline stD = .ok true stE := by rfl
theorem c4_f : machineRun cfg4 19 .pline stE = .ok true stF := by rfl
theorem c4_g : machineRun cfg4 18 .pline stF = .ok true stG := by rfl
theorem c4_h : machineRun cfg4 17 .pline stG = .ok true stH := by rfl
theorem c4_i : machineRun cfg4 16 .pline stH = .ok false stH := by rfl
theorem c4_post : includeFilePost stH = .ok true stJ := by rfl

theorem c4_loop : machineRun cfg4 24 (.plines root4) stA = .ok true stH := by
  rw [machineRun_plines_step cfg4 root4 23 stA stB c4_b rfl,
      machineRun_plines_step cfg4 root4 22 stB stC c4_c rfl,
      machineRun_plines_step cfg4 root4 21 stC stD c4_d rfl,
      machineRun_plines_step cfg4 root4 20 stD stE c4_e rfl,
      machineRun_plines_step cfg4 root4 19 stE stF c4_f rfl,
      machineRun_plines_step cfg4 root4 18 stF stG c4_g rfl,
      machineRun_plines_step cfg4 root4 17 stG stH c4_h rfl,
      machineRun_plines_done cfg4 root4 16 stH stH c4_i]

theorem c4_run : processM cfg4 25 st4 = .ok stJ.env.output stJ := by
  apply processM_ok cfg4 25 st4 true stJ _ rfl rfl
  show machineRun cfg4 (24 + 1) (MCall.pincludeFile root4 true) { st4 with env := emptyEnv } = MRes.ok true stJ
  rw [machineRun_pincludeFile_split cfg4 24 root4 true lines4 rfl rfl]
  rw [mbind_ok _ _ _ _ _ c4_pre]
  rw [mbind_ok _ _ _ _ _ c4_loop]
  exact c4_post

def cfg7 : Config :=
  { fs := [( "/d/r.glsl".toList, [ "#for i in 1..2".toList, "x".toList ] )],
    includePaths := [], versionString := [], osName := [], absolutize := id }

def lines7 : List (List Char) := [ "#for i in 1..2".toList, "x".toList ]

def stP : PState := { shaderPath := "/d/r.glsl".toList, dictionary := [], includedFiles := [("/d/r.glsl".toList, { fileIdentifier := 0, isTracked := true })], callbackRegistered := false, env := { output := [], line := "".toList, indentation := "".toList, success := true, inputs := [{ lines := ["#for i in 1..2".toList, "x".toList], pos := 0, path := "/d/r.glsl".toList, lineNumber := 0, indentation := "".toList }], scopes := [], aliases := [], forStatements := [] } }
def stQ : PState := { shaderPath := "/d/r.glsl".toList, dictionary := [("(Range 1 to 2)".toList, Val.vDict ([("1".toList, Val.vStr ("1".toList)), ("2".toList, Val.vStr ("2".toList))]))], includedFiles := [("/d/r.glsl".toList, { fileIdentifier := 0, isTracked := true })], callbackRegistered := false, env := { output := [OutItem.forLoopComment ("(Range 1 to 2)".toList), OutItem.keyComment ("1".toList) ("(Range 1 to 2)".toList), OutItem.lineMarker 1 0 ("/d/r.glsl".toList)], line := "#for i in 1..2".toList, indentation := "".toList, success := true, inputs := [{ lines := ["#for i in 1..2".toList, "x".toList], pos := 1, path := "/d/r.glsl".toList, lineNumber := 1, indentation := "".toList }], scopes := [["".toList, "i".toList]], aliases := [("".toList, [['\"', '1', '\"']]), ("i".toList, ["(Range 1 to 2).1".toList])], forStatements := [{ inputIndex := 0, lineNumber := 1, streamPos := 1, keyName := "".toList, valueName := "i".toList, dictionaryReference := "(Range 1 to 2)".toList, keyIndex := (0 : Int) }] } }
def stR : PState := { shaderPath := "/d/r.glsl".toList, dictionary := [("(Range 1 to 2)".toList, Val.vDict ([("1".toList, Val.vStr ("1".toList)), ("2".toList, Val.vStr ("2".toList))]))], includedFiles := [("/d/r.glsl".toList, { fileIdentifier := 0, isTracked := true })], callbackRegistered := false, env := { output := [OutItem.forLoopComment ("(Range 1 to 2)".toList), OutItem.keyComment ("1".toList) ("(Range 1 to 2)".toList), OutItem.lineMarker 1 0 ("/d/r.glsl".toList), OutItem.srcLine ("".toList) ("x".toList)], line := "x".toList, indentation := "".toList, success := true, inputs := [{ lines := ["#for i in 1..2".toList, "x".toList], pos := 2, path := "/d/r.glsl".toList, lineNumber := 2, indentation := "".toList }], scopes := [["".toList, "i".toList]], aliases := [("".toList, [['\"', '1', '\"']]), ("i".toList, ["(Range 1 to 2).1".toList])], forStatements := [{ inputIndex := 0, lineNumber := 1, streamPos := 1, keyName := "".toList, valueName := "i".toList, dictionaryReference := "(Range 1 to 2)".toList, keyIndex := (0 : Int) }] } }
def stS : PState := { shaderPath := "/d/r.glsl".toList, dictionary := [("(Range 1 to 2)".toList, Val.vDict ([("1".toList, Val.vStr ("1".toList)), ("2".toList, Val.vStr ("2".toList))]))], includedFiles := [("/d/r.glsl".toList, { fileIdentifier := 0, isTracked := true })], callbackRegistered := false, env := { output := [OutItem.forLoopComment ("(Range 1 to 2)".toList), OutItem.keyComment ("1".toList) ("(Range 1 to 2)".toList), OutItem.lineMarker 1 0 ("/d/r.glsl".toList), OutItem.srcLine ("".toList) ("x".toList)], line := "x".toList, indentation := "".toList, success := true, inputs := [{ lines := ["#for i in 1..2".toList, "x".toList], pos := 2, path := "/d/r.glsl".toList, lineNumber := 2, indentation := "".toList }], scopes := [["".toList, "i".toList]], aliases := [("".toList, [['\"', '1', '\"']]), ("i".toList, ["(Range 1 to 2).1".toList])], forStatements := [{ inputIndex := 0, lineNumber := 1, streamPos := 1, keyName := "".toList, valueName := "i".toList, dictionaryReference := "(Range 1 to 2)".toList, keyIndex := (0 : Int) }] } }

theorem c7_pre : includeFilePre root4 true lines7 { st4 with env := emptyEnv } = .ok () stP := by rfl
theorem c7_q : machineRun cfg7 23 .pline stP = .ok true stQ := by rfl
theorem c7_r : machineRun cfg7 22 .pline stQ = .ok true stR := by rfl
theorem c7_s : machineRun cfg7 21 .pline stR = .ok false stR := by rfl
theorem c7_post : includeFilePost stR =
    .err (.parserEofInFor root4 1 (some (root4, 2))) stR := by rfl

theorem c7_loop : machineRun cfg7 24 (.plines root4) stP = .ok true stR := by
  rw [machineRun_plines_step cfg7 root4 23 stP stQ c7_q rfl,
      machineRun_plines_step cfg7 root4 22 stQ stR c7_r rfl,
      machineRun_plines_done cfg7 root4 21 stR stR c7_s]

theorem c7_run : processM cfg7 25 st4 =
    .err (.parserEofInFor root4 1 (some (root4, 2))) stR := by
  apply processM_err cfg7 25 st4 _ stR
  show machineRun cfg7 (24 + 1) (MCall.pincludeFile root4 true) { st4 with env := emptyEnv } = _
  rw [machineRun_pincludeFile_split cfg7 24 root4 true lines7 rfl rfl]
  rw [mbind_ok _ _ _ _ _ c7_pre]
  rw [mbind_ok _ _ _ _ _ c7_loop]
  exact c7_post

theorem substituteLineCore_no_token (sub : List Char → Except Err (List Char)) (dbg : Dbg)
    (fuel : Nat) (line : List Char) (h : rfindSub hashOpen line = none) :
    substituteLineCore sub dbg fuel line = .ok line := by
  cases fuel <;> simp only [substituteLineCore, h]

def tokLine5 : List Char := ['#', lbrace] ++ "undefined".toList ++ [rbrace]

def cfg5 : Config :=
  { fs := [( "/d/r.glsl".toList,
      [ "#for k, v in e".toList, tokLine5, "#endfor".toList, "ok".toList ] )],
    includePaths := [], versionString := [], osName := [], absolutize := id }

def st5 : PState :=
  { shaderPath := "/d/r.glsl".toList, dictionary := [("e".toList, Val.vDict [])],
    includedFiles := [], callbackRegistered := false, env := emptyEnv }

def lines5 : List (List Char) :=
  [ "#for k, v in e".toList, tokLine5, "#endfor".toList, "ok".toList ]

def stK : PState := { shaderPath := "/d/r.glsl".toList, dictionary := [("e".toList, Val.vDict ([]))], includedFiles := [("/d/r.glsl".toList, { fileIdentifier := 0, isTracked := true })], callbackRegistered := false, env := { output := [], line := "".toList, indentation := "".toList, success := true, inputs := [{ lines := ["#for k, v in e".toList, ['#', lbrace, 'u', 'n', 'd', 'e', 'f', 'i', 'n', 'e', 'd', rbrace], "#endfor".toList, "ok".toList], pos := 0, path := "/d/r.glsl".toList, lineNumber := 0, indentation := "".toList }], scopes := [], aliases := [], forStatements := [] } }
def stL : PState := { shaderPath := "/d/r.glsl".toList, dictionary := [("e".toList, Val.vDict ([]))], includedFiles := [("/d/r.glsl".toList, { fileIdentifier := 0, isTracked := true })], callbackRegistered := false, env := { output := [OutItem.emptyForComment], line := "#for k, v in e".toList, indentation := "".toList, success := true, inputs := [{ lines := ["#for k, v in e".toList, ['#', lbrace, 'u', 'n', 'd', 'e', 'f', 'i', 'n', 'e', 'd', rbrace], "#endfor".toList, "ok".toList], pos := 1, path := "/d/r.glsl".toList, lineNumber := 1, indentation := "".toList }], scopes := [[]], aliases := [], forStatements := [{ inputIndex := 0, lineNumber := 1, streamPos := 1, keyName := "k".toList, valueName := "v".toList, dictionaryReference := "e".toList, keyIndex := (-1 : Int) }] } }
def stM : PState := { shaderPath := "/d/r.glsl".toList, dictionary := [("e".toList, Val.vDict ([]))], includedFiles := [("/d/r.glsl".toList, { fileIdentifier := 0, isTracked := true })], callbackRegistered := false, env := { output := [OutItem.emptyForComment], line := ['#', lbrace, 'u', 'n', 'd', 'e', 'f', 'i', 'n', 'e', 'd', rbrace], indentation := "".toList, success := true, inputs := [{ lines := ["#for k, v in e".toList, ['#', lbrace, 'u', 'n', 'd', 'e', 'f', 'i', 'n', 'e', 'd', rbrace], "#endfor".toList, "ok".toList], pos := 2, path := "/d/r.glsl".toList, lineNumber := 2, indentation := "".toList }], scopes := [[]], aliases := [], forStatements := [{ inputIndex := 0, lineNumber := 1, streamPos := 1, keyName := "k".toList, valueName := "v".toList, dictionaryReference := "e".toList, keyIndex := (-1 : Int) }] } }
def stN : PState := { shaderPath := "/d/r.glsl".toList, dictionary := [("e".toList, Val.vDict ([]))], includedFiles := [("/d/r.glsl".toList, { fileIdentifier := 0, isTracked := true })], callbackRegistered := false, env := { output := [OutItem.emptyForComment, OutItem.terminateComment ("e".toList), OutItem.lineMarker 3 0 ("/d/r.glsl".toList)], line := "#endfor".toList, indentation := "".toList, success := true, inputs := [{ lines := ["#for k, v in e".toList, ['#', lbrace, 'u', 'n', 'd', 'e', 'f', 'i', 'n', 'e', 'd', rbrace], "#endfor".toList, "ok".toList], pos := 3, path := "/d/r.glsl".toList, lineNumber := 3, indentation := "".toList }], scopes := [], aliases := [], forStatements := [] } }
def stO : PState := { shaderPath := "/d/r.glsl".toList, dictionary := [("e".toList, Val.vDict ([]))], includedFiles := [("/d/r.glsl".toList, { fileIdentifier := 0, isTracked := true })], callbackRegistered := false, env := { output := [OutItem.emptyForComment, OutItem.terminateComment ("e".toList), OutItem.lineMarker 3 0 ("/d/r.glsl".toList), OutItem.srcLine ("".toList) ("ok".toList)], line := "ok".toList, indentation := "".toList, success := true, inputs := [{ lines := ["#for k, v in e".toList, ['#', lbrace, 'u', 'n', 'd', 'e', 'f', 'i', 'n', 'e', 'd', rbrace], "#endfor".toList, "ok".toList], pos := 4, path := "/d/r.glsl".toList, lineNumber := 4, indentation := "".toList }], scopes := [], aliases := [], forStatements := [] } }
def stZ : PState := { shaderPath := "/d/r.glsl".toList, dictionary := [("e".toList, Val.vDict ([]))], includedFiles := [("/d/r.glsl".toList, { fileIdentifier := 0, isTracked := true })], callbackRegistered := false, env := { output := [OutItem.emptyForComment, OutItem.terminateComment ("e".toList), OutItem.lineMarker 3 0 ("/d/r.glsl".toList), OutItem.srcLine ("".toList) ("ok".toList)], line := "ok".toList, indentation := "".toList, success := true, inputs := [{ lines := ["#for k, v in e".toList, ['#', lbrace, 'u', 'n', 'd', 'e', 'f', 'i', 'n', 'e', 'd', rbrace], "#endfor".toList, "ok".toList], pos := 4, path := "/d/r.glsl".toList, lineNumber := 4, indentation := "".toList }], scopes := [], aliases := [], forStatements := [] } }
def stFin5 : PState := { shaderPath := "/d/r.glsl".toList, dictionary := [("e".toList, Val.vDict ([]))], includedFiles := [("/d/r.glsl".toList, { fileIdentifier := 0, isTracked := true })], callbackRegistered := false, env := { output := [OutItem.emptyForComment, OutItem.terminateComment ("e".toList), OutItem.lineMarker 3 0 ("/d/r.glsl".toList), OutItem.srcLine ("".toList) ("ok".toList)], line := "ok".toList, indentation := "".toList, success := true, inputs := [], scopes := [], aliases := [], forStatements := [] } }

theorem c5_pre : includeFilePre root4 true lines5 { st5 with env := emptyEnv } = .ok () stK := by rfl
theorem c5_l : machineRun cfg5 23 .pline stK = .ok true stL := by rfl
theorem c5_m : machineRun cfg5 22 .pline stL = .ok true stM := by rfl
theorem c5_n : machineRun cfg5 21 .pline stM = .ok true stN := by rfl
theorem c5_o : machineRun cfg5 20 .pline stN = .ok true stO := by rfl
theorem c5_z : machineRun cfg5 19 .pline stO = .ok false stO := by rfl
theorem c5_post : includeFilePost stO = .ok true stFin5 := by rfl

theorem c5_loop : machineRun cfg5 24 (.plines root4) stK = .ok true stO := by
  rw [machineRun_plines_step cfg5 root4 23 stK stL c5_l rfl,
      machineRun_plines_step cfg5 root4 22 stL stM c5_m rfl,
      machineRun_plines_step cfg5 root4 21 stM stN c5_n rfl,
      machineRun_plines_step cfg5 root4 20 stN stO c5_o rfl,
      machineRun_plines_done cfg5 root4 19 stO stO c5_z]

theorem c5_run : processM cfg5 25 st5 = .ok stFin5.env.output stFin5 := by
  apply processM_ok cfg5 25 st5 true stFin5 _ rfl rfl
  show machineRun cfg5 (24 + 1) (MCall.pincludeFile root4 true) { st5 with env := emptyEnv } = MRes.ok true stFin5
  rw [machineRun_pincludeFile_split cfg5 24 root4 true lines5 rfl rfl]
  rw [mbind_ok _ _ _ _ _ c5_pre]
  rw [mbind_ok _ _ _ _ _ c5_loop]
  exact c5_post

/-- Claim C5: while the innermost open ForStatement has keyIndex -1 (a loop
over a zero-key dictionary), every line other than #endfor is discarded: it
is not emitted, not substituted and not dispatched, and the only state
change of parseLine is the input cursor and the line/indentation scratch
fields.  Moreover #endfor is recognised before substitution, so a
zero-iteration loop body contributes nothing to the output even when it
contains a token that would fail substitution: the concrete source with
body tokLine5 (an unresolvable token) processes successfully and emits
exactly the line following the loop. -/
theorem claim_C5 :
    (∀ (cfg : Config) (n : Nat) (s : PState) (inp : Input) (restInputs : List Input)
       (raw : List Char) (fs : ForStatement) (restFs : List ForStatement),
       s.env.inputs = inp :: restInputs →
       inp.lines.get? inp.pos = some raw →
       s.env.forStatements = fs :: restFs →
       fs.keyIndex = -1 →
       (decide ((trimF raw).2.length ≤ 6) || !(("#endfor".toList).isPrefixOf (trimF raw).2)) = true →
       parseLineM cfg (n + 1) s = .ok true { s with env := { s.env with
         inputs := { inp with pos := inp.pos + 1, lineNumber := inp.lineNumber + 1 } :: restInputs,
         line := (trimF raw).2, indentation := (trimF raw).1 } }) ∧
    processM cfg5 25 st5 = .ok stFin5.env.output stFin5 ∧
    srcLines stFin5.env.output = ["ok".toList] := by
  refine ⟨?_, c5_run, by rfl⟩
  intro cfg n s inp restInputs raw fs restFs hin hline hfs hempty hnotend
  simp only [parseLineM, machineRun_succ, machineStep, bind_eq_mbind, mbind, getS, modifyS,
    modifyEnvS, mpure, hin, hline, parseEndForM, hfs, hempty, isInsideEmptyFor, hnotend,
    if_true, if_false, beq_self_eq_true]

/-- Witness for claim C5: the suppressed-line part applied at the concrete
state after entering the zero-key loop of cfg5; the line under the cursor is
the unresolvable token line, yet parseLine succeeds and only advances the
cursor. -/
theorem claim_C5_witness :
    (stL.env.forStatements.map ForStatement.keyIndex = [-1] ∧
     (stL.env.inputs.map Input.pos) = [1]) ∧
    parseLineM cfg5 22 stL = .ok true stM :=
  ⟨by decide, claim_C5.1 cfg5 21 stL _ _ _ _ _ rfl rfl rfl rfl (by decide)⟩

/-- Claim C1 counterexample: with a registered on-change callback, a
setDictionary call whose argument equals the current dictionary leaves the
effective input unchanged and still invokes the callback, contradicting the
if-and-only-if in the claim. -/
theorem claim_C1_counterexample :
    st5.callbackRegistered = false ∧
    (let st := { st5 with callbackRegistered := true }
     (setDictionaryF st st.dictionary).2 = true ∧
     (setDictionaryF st st.dictionary).1.dictionary = st.dictionary ∧
     (setDictionaryF st st.dictionary).1.shaderPath = st.shaderPath) :=
  ⟨rfl, rfl, rfl, rfl⟩

/-- Claim C1 (amended): for a registered callback, setFilename invokes it if
and only if the call changes the shader path, while setDictionary always
invokes it, whether or not the dictionary changes; both setters store their
argument (setFilename leaves the path untouched when it is unchanged, which
is the same path). -/
theorem claim_C1 (st : PState) (p : List Char) (d : Dict) :
    ((setFilenameF st p).2 = true ↔ (st.callbackRegistered = true ∧ st.shaderPath ≠ p)) ∧
    ((setDictionaryF st d).2 = st.callbackRegistered) ∧
    ((setDictionaryF st d).1.dictionary = d) ∧
    ((setFilenameF st p).1.shaderPath = p ∨ (setFilenameF st p).1 = st) := by
  refine ⟨?_, rfl, rfl, ?_⟩
  · by_cases h : st.shaderPath = p
    · simp [setFilenameF, h]
    · simp [setFilenameF, h]
  · by_cases h : st.shaderPath = p
    · right
      simp [setFilenameF, h]
    · left
      simp [setFilenameF, h]

/-- Claim C10: addIncludePath is idempotent on the include-path list: a
directory already present leaves the list unchanged, every add either keeps
the list or appends the new directory at the end, and a duplicate-free list
stays duplicate-free, so the same search directory is never stored twice. -/
theorem claim_C10 (isDirectory : List Char → Bool) (paths : List (List Char)) (p : List Char)
    (hne : p.isEmpty = false) (hdir : isDirectory p = true) :
    (p ∈ paths → addIncludePathF isDirectory paths p = .ok paths) ∧
    (addIncludePathF isDirectory paths p = .ok (if p ∈ paths then paths else paths ++ [p])) ∧
    (paths.Nodup → ∀ r, addIncludePathF isDirectory paths p = .ok r → r.Nodup) := by
  refine ⟨?_, ?_, ?_⟩
  · intro hmem
    simp [addIncludePathF, hne, hdir, hmem]
  · by_cases hmem : p ∈ paths <;> simp [addIncludePathF, hne, hdir, hmem]
  · intro hnd r hr
    by_cases hmem : p ∈ paths
    · simp [addIncludePathF, hne, hdir, hmem] at hr
      exact hr ▸ hnd
    · simp [addIncludePathF, hne, hdir, hmem] at hr
      subst hr
      simp [List.nodup_append, hnd, hmem]

/-- Witness for claim C10: adding the directory "/d" to a list already
containing it leaves the list unchanged. -/
theorem claim_C10_witness :
    (("/d".toList).isEmpty = false ∧ "/d".toList ∈ ["/d".toList]) ∧
    addIncludePathF (fun _ => true) ["/d".toList] ("/d".toList) = .ok ["/d".toList] :=
  ⟨⟨by decide, by decide⟩,
   (claim_C10 (fun _ => true) ["/d".toList] ("/d".toList) (by decide) rfl).1 (by decide)⟩

theorem findCharIdx_take_none {c : Char} : ∀ {s : List Char} {i : Nat},
    findCharIdx c s = some i → findCharIdx c (s.take i) = none := by
  intro s
  induction s with
  | nil => intro i h; simp [findCharIdx] at h
  | cons x rest ih =>
    intro i h
    simp only [findCharIdx] at h
    by_cases hx : x = c
    · simp only [if_pos hx, Option.some.injEq] at h
      rw [← h]
      simp [findCharIdx]
    · simp only [if_neg hx, Option.map_eq_some'] at h
      obtain ⟨j, hj, rfl⟩ := h
      simp only [List.take_succ_cons, findCharIdx, if_neg hx, ih hj, Option.map_none']

theorem take_lookupPath_eq (entries : Dict) (k : List Char) (i : Nat)
    (hd : findCharIdx '.' k = some i) :
    lookupPath entries (k.take i) = assocGet entries (k.take i) := by
  rw [lookupPath_eq, findCharIdx_take_none hd]

theorem hasKeyRecursive_eq (dictionary : Dict) (key : List Char) :
    hasKeyRecursive dictionary key = dHasKey dictionary key := by
  cases hd : findCharIdx '.' key with
  | none => simp only [hasKeyRecursive, hd]
  | some i =>
    have ht := take_lookupPath_eq dictionary key i hd
    have hk : lookupPath dictionary key =
        (match assocGet dictionary (key.take i) with
         | some (.vDict d2) => lookupPath d2 (key.drop (i + 1))
         | _ => none) := by
      rw [lookupPath_eq, hd]
    cases hv : assocGet dictionary (key.take i) with
    | none =>
      simp only [hasKeyRecursive, hd, dHasKey, ht, hv, hk, Option.isSome_none,
        Bool.false_eq_true, if_false]
    | some v =>
      cases v
      case vDict d2 =>
        simp only [hasKeyRecursive, hd, dHasKey, ht, hv, hk, dValueDict, Option.isSome_some,
          if_true]
      all_goals
        simp only [hasKeyRecursive, hd, dHasKey, ht, hv, hk, dValueDict, Option.isSome_some,
          Option.isSome_none, if_true]

theorem hasValueRecursive_eq (τ : Ty) (dictionary : Dict) (key : List Char) :
    hasValueRecursive τ dictionary key = dHasValue τ dictionary key := by
  cases hd : findCharIdx '.' key with
  | none => simp only [hasValueRecursive, hd]
  | some i =>
    have ht := take_lookupPath_eq dictionary key i hd
    have hk : lookupPath dictionary key =
        (match assocGet dictionary (key.take i) with
         | some (.vDict d2) => lookupPath d2 (key.drop (i + 1))
         | _ => none) := by
      rw [lookupPath_eq, hd]
    cases hv : assocGet dictionary (key.take i) with
    | none =>
      simp only [hasValueRecursive, hd, dValueDict, ht, hv]
      simp only [dHasValue, hk, hv]
    | some v =>
      cases v
      case vDict d2 =>
        simp only [hasValueRecursive, hd, dValueDict, ht, hv]
        simp only [dHasValue, hk, hv]
      all_goals
        simp only [hasValueRecursive, hd, dValueDict, ht, hv]
        all_goals simp only [dHasValue, hk, hv]

theorem valueRecursive_eq (dictionary : Dict) (key : List Char) :
    valueRecursive dictionary key = dValue dictionary key := by
  cases hd : findCharIdx '.' key with
  | none => simp only [valueRecursive, hd, dValue]
  | some i =>
    have ht := take_lookupPath_eq dictionary key i hd
    have hk : lookupPath dictionary key =
        (match assocGet dictionary (key.take i) with
         | some (.vDict d2) => lookupPath d2 (key.drop (i + 1))
         | _ => none) := by
      rw [lookupPath_eq, hd]
    cases hv : assocGet dictionary (key.take i) with
    | none =>
      simp only [valueRecursive, hd, dValueDict, ht, hv, dValue, hk]
    | some v =>
      cases v
      case vDict d2 =>
        simp only [valueRecursive, hd, dValueDict, ht, hv, dValue, hk]
      all_goals simp only [valueRecursive, hd, dValueDict, ht, hv, dValue, hk]

/-- Spec-side alias step, written from the claim: the token (or its part
before the first dot) is replaced by the top of its alias stack when one
exists. -/
def specAliasTop (aliases : Aliases) (name : List Char) : List Char :=
  match assocGet aliases name with
  | some (v :: _) => v
  | _ => name

/-- Spec-side resolved path, written from the claim: the alias-resolved
dotted path. -/
def specResolved (aliases : Aliases) (tok : List Char) : List Char :=
  match findCharIdx '.' tok with
  | none => specAliasTop aliases tok
  | some i => specAliasTop aliases (tok.take i) ++ tok.drop i

/-- Spec-side resolvability, written from the claim: either the token has no
dot and its alias-resolved form is a quoted string literal, or the
alias-resolved dotted path exists in the dictionary, traversing nested
dictionaries per dot segment (lookupPath). -/
def specResolvable (dict : Dict) (aliases : Aliases) (tok : List Char) : Prop :=
  (findCharIdx '.' tok = none ∧ isStringLit (specAliasTop aliases tok) = true) ∨
  (lookupPath dict (specResolved aliases tok)).isSome = true

theorem drop_ne_nil_of_findCharIdx {c : Char} {s : List Char} {i : Nat}
    (h : findCharIdx c s = some i) : s.drop i ≠ [] := by
  have := findCharIdx_lt_length h
  intro hcon
  have : (s.drop i).length = 0 := by rw [hcon]; rfl
  simp only [List.length_drop] at this
  omega

/-- Claim C6: a substitution token resolves successfully if and only if
either it contains no dot and its alias-resolved form is a quoted string
literal, or the alias-resolved dotted path exists in the dictionary
(traversing nested dictionaries per dot segment); when resolution fails,
substitute raises a SubstitutionError carrying the unresolved token and the
current file and line. -/
theorem claim_C6 (dict : Dict) (aliases : Aliases) (tok : List Char) (dbg : Dbg) :
    ((resolveAlias dict aliases tok).2 = true ↔ specResolvable dict aliases tok) ∧
    ((resolveAlias dict aliases tok).2 = false →
      substituteTok dict aliases dbg tok = .error (.substitutionUnresolved tok dbg)) := by
  constructor
  · cases hd : findCharIdx '.' tok with
    | none =>
      simp only [resolveAlias, hd, specResolvable, specResolved, specAliasTop, hd,
        List.isEmpty_nil, Bool.true_and, Bool.or_eq_true, hasKeyRecursive_eq, dHasKey,
        List.append_nil, true_and]
    | some i =>
      have hne : (tok.drop i).isEmpty = false := by
        cases hcon : tok.drop i with
        | nil => exact absurd hcon (drop_ne_nil_of_findCharIdx hd)
        | cons a l => rfl
      simp only [resolveAlias, hd, specResolvable, specResolved, specAliasTop, hd, hne,
        Bool.false_and, Bool.false_or, hasKeyRecursive_eq, dHasKey]
      constructor
      · intro h
        exact Or.inr h
      · rintro (⟨hcon, _⟩ | h)
        · simp at hcon
        · exact h
  · intro h
    simp only [substituteTok, h, Bool.not_false, if_true]

/-- Witness for claim C6: the token undefinedKey with an empty dictionary
fails to resolve, and substitute raises a SubstitutionError carrying the
token and the current file and line. -/
theorem claim_C6_witness :
    (resolveAlias [] [] ("undefinedKey".toList)).2 = false ∧
    substituteTok [] [] (some ("/d/r.glsl".toList, 3)) ("undefinedKey".toList) =
      .error (.substitutionUnresolved ("undefinedKey".toList) (some ("/d/r.glsl".toList, 3))) :=
  ⟨by decide, (claim_C6 [] [] ("undefinedKey".toList) (some ("/d/r.glsl".toList, 3))).2 (by decide)⟩

theorem resolveAlias_no_alias_fst (dict : Dict) (tok : List Char) :
    (resolveAlias dict [] tok).1 = tok := by
  cases hd : findCharIdx '.' tok with
  | none => simp [resolveAlias, hd, assocGet]
  | some i => simp [resolveAlias, hd, assocGet, List.take_append_drop]

theorem resolveAlias_no_alias_snd (dict : Dict) (tok : List Char) (v : Val)
    (hv : lookupPath dict tok = some v) :
    (resolveAlias dict [] tok).2 = true := by
  cases hd : findCharIdx '.' tok with
  | none =>
    simp [resolveAlias, hd, assocGet, hasKeyRecursive_eq, dHasKey, hv]
  | some i =>
    simp [resolveAlias, hd, assocGet, hasKeyRecursive_eq, dHasKey,
      List.take_append_drop, hv]

/-- Spec-side emission table, written from the claim: booleans emit 1 or 0,
strings their content, numbers their decimal text, vectors the
ivec2(x,y)-family forms, and a nested Dictionary (the only stored type
outside the probed set) raises the unsupported-type SubstitutionError. -/
def specEmit (tok : List Char) (dbg : Dbg) : Val → Except Err (List Char)
  | .vBool b => .ok (if b then ['1'] else ['0'])
  | .vStr s => .ok s
  | .vInt n => .ok (intToChars n)
  | .vDouble n => .ok (dblToChars n)
  | .vIvec2 x y => .ok (ivec2Chars x y)
  | .vIvec3 x y z => .ok (ivec3Chars x y z)
  | .vDvec2 x y => .ok (dvec2Chars x y)
  | .vDvec3 x y z => .ok (dvec3Chars x y z)
  | .vDict _ => .error (.substitutionUnsupported tok tok dbg)

def dict3 : Dict :=
  [("flag".toList, .vBool true), ("count".toList, .vInt 5), ("pos".toList, .vIvec2 1 2),
   ("nested".toList, .vDict [])]

/-- Claim C3: for an alias-free token that is not a quoted literal and whose
dotted path holds a value in the dictionary, the type-probe chain of
substitute emits exactly the spec's table: 1/0 for booleans, the raw string,
decimal text for numbers, ivec2/ivec3/dvec2/dvec3 forms for vectors, and an
unsupported-type SubstitutionError for a value outside the probed set (a
nested Dictionary); on dictionary (flag, true), (count, 5),
(pos, ivec2(1,2)) the tokens flag, count, pos yield 1, 5 and ivec2(1,2). -/
theorem claim_C3 :
    (∀ (dict : Dict) (tok : List Char) (dbg : Dbg) (v : Val),
      isStringLit tok = false → lookupPath dict tok = some v →
      substituteTok dict [] dbg tok = specEmit tok dbg v) ∧
    substituteTok dict3 [] none ("flag".toList) = .ok ['1'] ∧
    substituteTok dict3 [] none ("count".toList) = .ok ['5'] ∧
    substituteTok dict3 [] none ("pos".toList) = .ok ("ivec2(1,2)".toList) ∧
    substituteTok dict3 [] none ("nested".toList) =
      .error (.substitutionUnsupported ("nested".toList) ("nested".toList) none) := by
  refine ⟨?_, by rfl, by rfl, by rfl, by rfl⟩
  intro dict tok dbg v hq hv
  have h1 := resolveAlias_no_alias_fst dict tok
  have h2 := resolveAlias_no_alias_snd dict tok v hv
  cases v <;>
    simp [substituteTok, h1, h2, hq, specEmit, hasValueRecursive_eq, dHasValue, hv, tyOf,
      valueRecursive_eq, dValue, boolToChars]

/-- Witness for claim C3: the general emission statement applied at the
concrete dictionary dict3 and token count, whose stored value is the
integer 5. -/
theorem claim_C3_witness :
    (isStringLit ("count".toList) = false ∧
     lookupPath dict3 ("count".toList) = some (.vInt 5)) ∧
    substituteTok dict3 [] none ("count".toList) = specEmit ("count".toList) none (.vInt 5) :=
  ⟨⟨by decide, by rfl⟩, claim_C3.1 dict3 ("count".toList) none (.vInt 5) (by decide) (by rfl)⟩

theorem bool_eq_false {b : Bool} (h : ¬ b = true) : b = false := by
  cases b
  · rfl
  · exact absurd rfl h

theorem rfindAux_occ (pat s : List Char) : ∀ (n i : Nat), rfindAux pat s n = some i →
    pat.isPrefixOf (s.drop i) = true ∧ i ≤ n := by
  intro n
  induction n with
  | zero =>
    intro i h
    simp only [rfindAux] at h
    by_cases hp : pat.isPrefixOf s = true
    · rw [if_pos hp, Option.some.injEq] at h
      subst h
      rw [List.drop_zero]
      exact ⟨hp, Nat.le_refl 0⟩
    · rw [if_neg hp] at h
      exact absurd h (by simp)
  | succ n ih =>
    intro i h
    simp only [rfindAux] at h
    by_cases hp : pat.isPrefixOf (s.drop (n + 1)) = true
    · rw [if_pos hp, Option.some.injEq] at h
      subst h
      exact ⟨hp, Nat.le_refl _⟩
    · rw [if_neg hp] at h
      obtain ⟨h1, h2⟩ := ih i h
      exact ⟨h1, Nat.le_succ_of_le h2⟩

theorem rfindAux_max (pat s : List Char) : ∀ (n i : Nat), rfindAux pat s n = some i →
    ∀ j, i < j → j ≤ n → pat.isPrefixOf (s.drop j) = false := by
  intro n
  induction n with
  | zero =>
    intro i h j hij hj
    omega
  | succ n ih =>
    intro i h j hij hj
    simp only [rfindAux] at h
    by_cases hp : pat.isPrefixOf (s.drop (n + 1)) = true
    · rw [if_pos hp, Option.some.injEq] at h
      omega
    · rw [if_neg hp] at h
      rcases Nat.lt_or_ge j (n + 1) with hlt | hge
      · exact ih i h j hij (by omega)
      · have hj1 : j = n + 1 := by omega
        subst hj1
        exact bool_eq_false hp

theorem rfindAux_none (pat s : List Char) : ∀ (n : Nat), rfindAux pat s n = none →
    ∀ j, j ≤ n → pat.isPrefixOf (s.drop j) = false := by
  intro n
  induction n with
  | zero =>
    intro h j hj
    simp only [rfindAux] at h
    by_cases hp : pat.isPrefixOf s = true
    · rw [if_pos hp] at h
      exact absurd h (by simp)
    · have hj0 : j = 0 := by omega
      subst hj0
      rw [List.drop_zero]
      exact bool_eq_false hp
  | succ n ih =>
    intro h j hj
    simp only [rfindAux] at h
    by_cases hp : pat.isPrefixOf (s.drop (n + 1)) = true
    · rw [if_pos hp] at h
      exact absurd h (by simp)
    · rw [if_neg hp] at h
      rcases Nat.lt_or_ge j (n + 1) with hlt | hge
      · exact ih h j (by omega)
      · have hj1 : j = n + 1 := by omega
        subst hj1
        exact bool_eq_false hp

theorem rfindAux_exists (pat s : List Char) : ∀ (n j : Nat), j ≤ n →
    pat.isPrefixOf (s.drop j) = true → ∃ i, rfindAux pat s n = some i ∧ j ≤ i := by
  intro n
  induction n with
  | zero =>
    intro j hj hp
    have hj0 : j = 0 := by omega
    subst hj0
    rw [List.drop_zero] at hp
    exact ⟨0, by simp only [rfindAux, if_pos hp], Nat.le_refl 0⟩
  | succ n ih =>
    intro j hj hp
    by_cases hp1 : pat.isPrefixOf (s.drop (n + 1)) = true
    · exact ⟨n + 1, by simp only [rfindAux, if_pos hp1], by omega⟩
    · rcases Nat.lt_or_ge j (n + 1) with hlt | hge
      · obtain ⟨i, hi, hji⟩ := ih j (by omega) hp
        exact ⟨i, by simp only [rfindAux, if_neg hp1]; exact hi, hji⟩
      · have hj1 : j = n + 1 := by omega
        subst hj1
        exact absurd hp hp1

theorem hashOpen_isPrefixOf_nil : hashOpen.isPrefixOf ([] : List Char) = false := by decide

theorem rfindSub_some_spec (line : List Char) (i : Nat)
    (h : rfindSub hashOpen line = some i) :
    hashOpen.isPrefixOf (line.drop i) = true ∧
    (∀ j, hashOpen.isPrefixOf (line.drop j) = true → j ≤ i) := by
  obtain ⟨hocc, hle⟩ := rfindAux_occ hashOpen line line.length i h
  refine ⟨hocc, ?_⟩
  intro j hj
  by_contra hcon
  have hij : i < j := by omega
  rcases Nat.lt_or_ge line.length j with hjg | hjl
  · rw [List.drop_eq_nil_of_le (by omega), hashOpen_isPrefixOf_nil] at hj
    exact absurd hj (by simp)
  · have := rfindAux_max hashOpen line line.length i h j hij hjl
    rw [hj] at this
    exact absurd this (by simp)

theorem rfindSub_none_spec (line : List Char) (h : rfindSub hashOpen line = none) :
    ∀ j, hashOpen.isPrefixOf (line.drop j) = false := by
  intro j
  rcases Nat.lt_or_ge line.length j with hjg | hjl
  · rw [List.drop_eq_nil_of_le (by omega), hashOpen_isPrefixOf_nil]
  · exact rfindAux_none hashOpen line line.length h j hjl

theorem containsSub_false_pointwise (pat : List Char) : ∀ (s : List Char),
    containsSub pat s = false → ∀ i, pat.isPrefixOf (s.drop i) = false := by
  intro s
  induction s with
  | nil =>
    intro h i
    rw [List.drop_nil]
    simpa only [containsSub] using h
  | cons c rest ih =>
    intro h i
    simp only [containsSub, Bool.or_eq_false_iff] at h
    cases i with
    | zero => exact h.1
    | succ i => exact ih h.2 i

theorem containsSub_true_exists (pat : List Char) : ∀ (s : List Char),
    containsSub pat s = true → ∃ i, pat.isPrefixOf (s.drop i) = true := by
  intro s
  induction s with
  | nil =>
    intro h
    refine ⟨0, ?_⟩
    rw [List.drop_zero]
    simpa only [containsSub] using h
  | cons c rest ih =>
    intro h
    simp only [containsSub, Bool.or_eq_true] at h
    rcases h with h | h
    · exact ⟨0, by rw [List.drop_zero]; exact h⟩
    · obtain ⟨i, hi⟩ := ih h
      exact ⟨i + 1, by rw [List.drop_succ_cons]; exact hi⟩

theorem hashOpen_not_in_append (t b : List Char) (c : Char) (hc1 : c ≠ '#') (hc2 : c ≠ lbrace)
    (h1 : containsSub hashOpen t = false) (h2 : containsSub hashOpen b = false) :
    containsSub hashOpen (t ++ c :: b) = false := by
  induction t with
  | nil =>
    simp only [List.nil_append, containsSub, Bool.or_eq_false_iff]
    have hhc : (('#' : Char) == c) = false := beq_eq_false_iff_ne.mpr (Ne.symm hc1)
    constructor
    · simp [hashOpen, List.isPrefixOf, hhc]
    · exact h2
  | cons x t2 ih =>
    simp only [containsSub, Bool.or_eq_false_iff] at h1
    simp only [List.cons_append, containsSub, Bool.or_eq_false_iff]
    refine ⟨?_, ih h1.2⟩
    cases t2 with
    | nil =>
      have hlc : (lbrace == c) = false := beq_eq_false_iff_ne.mpr (Ne.symm hc2)
      simp [hashOpen, List.isPrefixOf, hlc]
    | cons y t3 =>
      have h11 := h1.1
      simp only [hashOpen, List.isPrefixOf, List.nil_append] at h11 ⊢
      simpa using h11

theorem findCharIdx_append_self (c : Char) : ∀ (t b : List Char), c ∉ t →
    findCharIdx c (t ++ c :: b) = some t.length := by
  intro t
  induction t with
  | nil =>
    intro b _
    simp [findCharIdx]
  | cons x t2 ih =>
    intro b hmem
    have hx : ¬ x = c := by
      intro hcon
      exact hmem (by simp [hcon])
    have hm2 : c ∉ t2 := fun hc => hmem (List.mem_cons_of_mem x hc)
    simp only [List.cons_append, findCharIdx, if_neg hx]
    rw [show t2.append (c :: b) = t2 ++ c :: b from rfl, ih b hm2]
    rfl

theorem rfindSub_last (a t b : List Char) (ht : containsSub hashOpen t = false)
    (hb : containsSub hashOpen b = false) :
    rfindSub hashOpen (a ++ '#' :: lbrace :: (t ++ rbrace :: b)) = some a.length := by
  have hX : containsSub hashOpen (t ++ rbrace :: b) = false :=
    hashOpen_not_in_append t b rbrace (by decide) (by decide) ht hb
  have hocc : hashOpen.isPrefixOf
      ((a ++ '#' :: lbrace :: (t ++ rbrace :: b)).drop a.length) = true := by
    rw [List.drop_left a ('#' :: lbrace :: (t ++ rbrace :: b))]
    simp [hashOpen, List.isPrefixOf]
  have hlen : a.length ≤ (a ++ '#' :: lbrace :: (t ++ rbrace :: b)).length := by
    simp [List.length_append]
  obtain ⟨i, hi, hai⟩ :=
    rfindAux_exists hashOpen (a ++ '#' :: lbrace :: (t ++ rbrace :: b))
      (a ++ '#' :: lbrace :: (t ++ rbrace :: b)).length a.length hlen hocc
  obtain ⟨hiocc, _⟩ := rfindSub_some_spec _ i hi
  have hile : i ≤ a.length := by
    by_contra hcon
    have hgt : a.length < i := by omega
    rcases Nat.lt_or_ge (a.length + 1) i with h2 | h2
    · -- i ≥ a.length + 2: the occurrence would be inside t ++ rbrace :: b
      obtain ⟨k, hk⟩ : ∃ k, i = a.length + (k + 1 + 1) := ⟨i - a.length - 2, by omega⟩
      have hdec : (a ++ '#' :: lbrace :: (t ++ rbrace :: b)).drop i =
          (t ++ rbrace :: b).drop k := by
        rw [hk, List.drop_append (k + 1 + 1), List.drop_succ_cons, List.drop_succ_cons]
      rw [hdec] at hiocc
      rw [containsSub_false_pointwise hashOpen (t ++ rbrace :: b) hX k] at hiocc
      exact absurd hiocc (by simp)
    · -- i = a.length + 1: the opener cannot start at the brace
      have hi1 : i = a.length + 1 := by omega
      subst hi1
      have hdec : (a ++ '#' :: lbrace :: (t ++ rbrace :: b)).drop (a.length + 1) =
          lbrace :: (t ++ rbrace :: b) := by
        rw [List.drop_append 1, List.drop_succ_cons, List.drop_zero]
      rw [hdec] at hiocc
      have hhl : (('#' : Char) == lbrace) = false := by decide
      have hpl : hashOpen.isPrefixOf (lbrace :: (t ++ rbrace :: b)) = false := by
        simp [hashOpen, List.isPrefixOf, hhl]
      rw [hpl] at hiocc
      exact absurd hiocc (by simp)
  have hieq : i = a.length := by omega
  rw [← hieq]
  exact hi

theorem findClose_after (t b : List Char) (hrb : rbrace ∉ t) :
    findCharIdx rbrace ('#' :: lbrace :: (t ++ rbrace :: b)) = some (t.length + 2) := by
  have h1 : ¬ ('#' : Char) = rbrace := by decide
  have h2 : ¬ lbrace = rbrace := by decide
  simp only [findCharIdx, if_neg h1, if_neg h2, findCharIdx_append_self rbrace t b hrb,
    Option.map_some']

theorem substituteLineCore_splice (sub : List Char → Except Err (List Char)) (dbg : Dbg)
    (fuel : Nat) (a t b out : List Char)
    (ht : containsSub hashOpen t = false) (hb : containsSub hashOpen b = false)
    (hrb : rbrace ∉ t) (hsub : sub t = .ok out) :
    substituteLineCore sub dbg (fuel + 1) (a ++ '#' :: lbrace :: (t ++ rbrace :: b)) =
    substituteLineCore sub dbg fuel (a ++ out ++ b) := by
  have hrf := rfindSub_last a t b ht hb
  have hdrop : (a ++ '#' :: lbrace :: (t ++ rbrace :: b)).drop a.length =
      '#' :: lbrace :: (t ++ rbrace :: b) := List.drop_left a _
  have hfc : findCharIdx rbrace ((a ++ '#' :: lbrace :: (t ++ rbrace :: b)).drop a.length) =
      some (t.length + 2) := by
    rw [hdrop]
    exact findClose_after t b hrb
  have htok : ((a ++ '#' :: lbrace :: (t ++ rbrace :: b)).drop (a.length + 2)).take
      (t.length + 2 - 2) = t := by
    rw [List.drop_append 2, List.drop_succ_cons, List.drop_succ_cons, List.drop_zero]
    have : t.length + 2 - 2 = t.length := by omega
    rw [this, List.take_left t (rbrace :: b)]
  have hfirst : (a ++ '#' :: lbrace :: (t ++ rbrace :: b)).take a.length = a :=
    List.take_left a _
  have hlast : ((a ++ '#' :: lbrace :: (t ++ rbrace :: b)).drop
      (a.length + (t.length + 2) + 1)).take
      ((a ++ '#' :: lbrace :: (t ++ rbrace :: b)).length - 1 - (a.length + (t.length + 2))) = b := by
    have e1 : a.length + (t.length + 2) + 1 = a.length + (t.length + 1 + 1 + 1) := by omega
    rw [e1, List.drop_append (t.length + 1 + 1 + 1), List.drop_succ_cons,
      List.drop_succ_cons]
    have e2 : (t ++ rbrace :: b).drop (t.length + 1) = b := by
      rw [List.drop_append 1, List.drop_succ_cons, List.drop_zero]
    rw [e2]
    have e3 : (a ++ '#' :: lbrace :: (t ++ rbrace :: b)).length - 1 -
        (a.length + (t.length + 2)) = b.length := by
      simp only [List.length_append, List.length_cons]
      omega
    rw [e3, List.take_length]
  conv_lhs => rw [substituteLineCore.eq_def]
  simp only [hrf, hfc, htok, hsub, hfirst, hlast]

theorem contains_false_of_rfind_none (line : List Char)
    (h : rfindSub hashOpen line = none) : containsSub hashOpen line = false := by
  cases hc : containsSub hashOpen line with
  | false => rfl
  | true =>
    obtain ⟨i, hi⟩ := containsSub_true_exists hashOpen line hc
    rw [rfindSub_none_spec line h i] at hi
    exact absurd hi (by simp)

theorem substituteLineCore_ok_clean (sub : List Char → Except Err (List Char)) (dbg : Dbg) :
    ∀ (fuel : Nat) (line r : List Char),
    substituteLineCore sub dbg fuel line = .ok r → containsSub hashOpen r = false := by
  intro fuel
  induction fuel with
  | zero =>
    intro line r h
    cases hr : rfindSub hashOpen line with
    | none =>
      rw [substituteLineCore_no_token sub dbg 0 line hr] at h
      injection h with h
      subst h
      exact contains_false_of_rfind_none line hr
    | some i =>
      rw [substituteLineCore.eq_def] at h
      simp only [hr] at h
      exact absurd h (by simp)
  | succ f ih =>
    intro line r h
    cases hr : rfindSub hashOpen line with
    | none =>
      rw [substituteLineCore_no_token sub dbg (f + 1) line hr] at h
      injection h with h
      subst h
      exact contains_false_of_rfind_none line hr
    | some i =>
      rw [substituteLineCore.eq_def] at h
      simp only [hr] at h
      cases hf : findCharIdx rbrace (line.drop i) with
      | none => simp [hf] at h
      | some e =>
        simp only [hf] at h
        cases hs : sub ((line.drop (i + 2)).take (e - 2)) with
        | error err => simp [hs] at h
        | ok out =>
          simp only [hs] at h
          exact ih _ r h

/-- Substitution callback used for the concrete re-substitution example of C2:
token a maps to replacement text that itself contains a substitution token,
token b maps to plain text. -/
def sub0 : List Char → Except Err (List Char) :=
  fun t =>
    if t = ['a'] then .ok ['#', lbrace, 'b', rbrace]
    else if t = ['b'] then .ok ['c']
    else .error (.substitutionUnresolved t none)

/-- C2: the substitution engine (substituteLine, source lines 410-432) terminates
immediately returning the line when no token opener occurs; the rfind step locates
the rightmost occurrence of the two-character opener; a single splice replaces the
whole span from that opener to the next closing brace by the resolution and then
restarts the scan over the entire current line (so freshly inserted replacement
text is itself substituted, as the concrete run with sub0 shows); and a returned
line contains no remaining opener, so the loop terminates exactly when none
remains. -/
theorem claim_C2 :
    (∀ (sub : List Char → Except Err (List Char)) (dbg : Dbg) (fuel : Nat)
        (line : List Char), rfindSub hashOpen line = none →
        substituteLineCore sub dbg fuel line = .ok line) ∧
    (∀ (line : List Char) (i : Nat), rfindSub hashOpen line = some i →
        hashOpen.isPrefixOf (line.drop i) = true ∧
        (∀ j, hashOpen.isPrefixOf (line.drop j) = true → j ≤ i)) ∧
    (∀ (sub : List Char → Except Err (List Char)) (dbg : Dbg) (fuel : Nat)
        (a t b out : List Char),
        containsSub hashOpen t = false → containsSub hashOpen b = false →
        rbrace ∉ t → sub t = .ok out →
        substituteLineCore sub dbg (fuel + 1) (a ++ '#' :: lbrace :: (t ++ rbrace :: b)) =
          substituteLineCore sub dbg fuel (a ++ out ++ b)) ∧
    (∀ (sub : List Char → Except Err (List Char)) (dbg : Dbg) (fuel : Nat)
        (line r : List Char), substituteLineCore sub dbg fuel line = .ok r →
        containsSub hashOpen r = false) ∧
    substituteLineCore sub0 none 5 ['x', '#', lbrace, 'a', rbrace, 'y'] =
      .ok ['x', 'c', 'y'] := by
  refine ⟨substituteLineCore_no_token, rfindSub_some_spec, ?_, ?_, ?_⟩
  · intro sub dbg fuel a t b out ht hb hrb hsub
    exact substituteLineCore_splice sub dbg fuel a t b out ht hb hrb hsub
  · intro sub dbg fuel line r h
    exact substituteLineCore_ok_clean sub dbg fuel line r h
  · rfl

/-- Witness for C2: the splice-and-restart equation applied at the concrete
example line, with every hypothesis discharged on concrete data. -/
theorem claim_C2_witness :
    substituteLineCore sub0 none 4 (['x'] ++ '#' :: lbrace :: (['a'] ++ rbrace :: ['y'])) =
      substituteLineCore sub0 none 3 (['x'] ++ ['#', lbrace, 'b', rbrace] ++ ['y']) :=
  claim_C2.2.2.1 sub0 none 3 ['x'] ['a'] ['y'] ['#', lbrace, 'b', rbrace]
    (by rfl) (by rfl) (by decide) (by rfl)

theorem aliasPush_wf (k v : List Char) : ∀ (A : Aliases), (∀ p ∈ A, p.2 ≠ []) →
    ∀ p ∈ aliasPush A k v, p.2 ≠ [] := by
  intro A
  induction A with
  | nil =>
    intro _ p hp
    simp only [aliasPush, List.mem_singleton] at hp
    subst hp
    simp
  | cons hd tl ih =>
    intro hwf p hp
    obtain ⟨k2, st⟩ := hd
    simp only [aliasPush] at hp
    by_cases hk : k2 = k
    · rw [if_pos hk] at hp
      rcases List.mem_cons.mp hp with h | h
      · subst h; simp
      · exact hwf p (List.mem_cons_of_mem _ h)
    · rw [if_neg hk] at hp
      rcases List.mem_cons.mp hp with h | h
      · subst h; exact hwf _ (List.mem_cons_self _ _)
      · exact ih (fun q hq => hwf q (List.mem_cons_of_mem _ hq)) p h

theorem aliasPop_aliasPush (k v : List Char) : ∀ (A : Aliases), (∀ p ∈ A, p.2 ≠ []) →
    aliasPop (aliasPush A k v) k = some A := by
  intro A
  induction A with
  | nil => intro _; simp [aliasPush, aliasPop]
  | cons hd tl ih =>
    intro hwf
    obtain ⟨k2, st⟩ := hd
    by_cases hk : k2 = k
    · subst hk
      have hst : st ≠ [] := hwf (k2, st) (List.mem_cons_self _ _)
      cases st with
      | nil => exact absurd rfl hst
      | cons s ss => simp [aliasPush, aliasPop]
    · simp only [aliasPush, if_neg hk, aliasPop, if_neg hk]
      rw [ih (fun q hq => hwf q (List.mem_cons_of_mem _ hq))]
      rfl

theorem aliasPop_aliasPush_ne (k k2 v : List Char) (hne : k2 ≠ k) : ∀ (B : Aliases),
    aliasPop (aliasPush B k2 v) k = (aliasPop B k).map (fun b => aliasPush b k2 v) := by
  intro B
  induction B with
  | nil => simp [aliasPush, aliasPop, hne]
  | cons hd tl ih =>
    obtain ⟨k3, st⟩ := hd
    by_cases h32 : k3 = k2
    · subst h32
      have h3k : ¬ k3 = k := hne
      simp only [aliasPush, if_pos rfl, aliasPop, if_neg h3k]
      cases hr : aliasPop tl k with
      | none => rfl
      | some r => simp [aliasPush]
    · by_cases h3k : k3 = k
      · subst h3k
        simp only [aliasPush, if_neg h32, aliasPop, if_pos rfl]
        cases st with
        | nil => rfl
        | cons s ss =>
          cases ss with
          | nil => rfl
          | cons s2 ss2 => simp [aliasPush, h32]
      · simp only [aliasPush, if_neg h32, aliasPop, if_neg h3k]
        rw [ih]
        cases hr : aliasPop tl k with
        | none => rfl
        | some r => simp [aliasPush, h32]

theorem aliasPop_pushAll_comm (k : List Char) : ∀ (tbl : List (List Char × List Char))
    (B : Aliases), k ∉ tbl.map Prod.fst →
    aliasPop (pushAll tbl B) k = (aliasPop B k).map (fun b => pushAll tbl b) := by
  intro tbl
  induction tbl with
  | nil =>
    intro B _
    show aliasPop B k = (aliasPop B k).map (fun b => pushAll [] b)
    cases aliasPop B k <;> rfl
  | cons hd tl ih =>
    intro B hk
    obtain ⟨k2, v⟩ := hd
    have hk2 : k2 ≠ k := by
      intro h
      exact hk (by rw [List.map_cons, h]; exact List.mem_cons_self _ _)
    have hk' : k ∉ tl.map Prod.fst := by
      intro h
      exact hk (by rw [List.map_cons]; exact List.mem_cons_of_mem _ h)
    show aliasPop (pushAll tl (aliasPush B k2 v)) k = _
    rw [ih (aliasPush B k2 v) hk', aliasPop_aliasPush_ne k k2 v hk2 B]
    cases aliasPop B k <;> rfl

theorem popAll_pushAll : ∀ (table : List (List Char × List Char)) (A : Aliases),
    (∀ p ∈ A, p.2 ≠ []) → (table.map Prod.fst).Nodup →
    popAll (pushAll table A) (table.map Prod.fst) = some A := by
  intro table
  induction table with
  | nil => intro A _ _; rfl
  | cons hd tl ih =>
    intro A hwf hnd
    obtain ⟨k, v⟩ := hd
    have hk : k ∉ tl.map Prod.fst := by
      simp only [List.map_cons, List.nodup_cons] at hnd
      exact hnd.1
    have hnd2 : (tl.map Prod.fst).Nodup := by
      simp only [List.map_cons, List.nodup_cons] at hnd
      exact hnd.2
    have h1 : aliasPop (pushAll tl (aliasPush A k v)) k = some (pushAll tl A) := by
      rw [aliasPop_pushAll_comm k tl (aliasPush A k v) hk, aliasPop_aliasPush k v A hwf]
      rfl
    show popAll (pushAll tl (aliasPush A k v)) (k :: tl.map Prod.fst) = some A
    simp only [popAll, h1]
    exact ih A hwf hnd2

theorem assocGet_aliasPush_self (k v : List Char) : ∀ (A : Aliases),
    ∃ st, assocGet (aliasPush A k v) k = some (v :: st) := by
  intro A
  induction A with
  | nil => exact ⟨[], by simp [aliasPush, assocGet]⟩
  | cons hd tl ih =>
    obtain ⟨k2, st2⟩ := hd
    by_cases hk : k2 = k
    · subst hk
      exact ⟨st2, by simp [aliasPush, assocGet]⟩
    · obtain ⟨st, hst⟩ := ih
      refine ⟨st, ?_⟩
      simp only [aliasPush, if_neg hk, assocGet, if_neg hk]
      exact hst

theorem resolveAlias_pushed (dict : Dict) (A : Aliases) (k v : List Char)
    (hdot : findCharIdx '.' k = none) :
    (resolveAlias dict (aliasPush A k v) k).1 = v := by
  obtain ⟨st, hst⟩ := assocGet_aliasPush_self k v A
  simp only [resolveAlias, hdot, hst, List.append_nil]

/-- C8: alias binding follows a stack discipline realizing nested shadowing:
a binding pushed by an inner scope is what a dotless token resolves to while
that scope is open; popping it restores the previous alias table exactly; and
popScope after pushScope returns the scope stack and alias table unchanged
(given well-formed stacks and the distinct keys a std::map table guarantees). -/
theorem claim_C8 :
    (∀ (dict : Dict) (A : Aliases) (k v : List Char), findCharIdx '.' k = none →
        (resolveAlias dict (aliasPush A k v) k).1 = v) ∧
    (∀ (A : Aliases) (k v : List Char), (∀ p ∈ A, p.2 ≠ []) →
        aliasPop (aliasPush A k v) k = some A) ∧
    (∀ (table : List (List Char × List Char)) (scopes : List (List (List Char)))
        (A : Aliases), (∀ p ∈ A, p.2 ≠ []) → (table.map Prod.fst).Nodup →
        popScopeCore (pushScopeCore table scopes A).1 (pushScopeCore table scopes A).2 =
          some (scopes, A)) := by
  refine ⟨?_, ?_, ?_⟩
  · intro dict A k v hdot
    exact resolveAlias_pushed dict A k v hdot
  · intro A k v hwf
    exact aliasPop_aliasPush k v A hwf
  · intro table scopes A hwf hnd
    show (popAll (pushAll table A) (table.map Prod.fst)).map (fun a2 => (scopes, a2)) =
      some (scopes, A)
    rw [popAll_pushAll table A hwf hnd]
    rfl

/-- Witness for C8: pushing a one-entry scope over an existing binding of the
same name and popping it restores the original table. -/
theorem claim_C8_witness :
    popScopeCore (pushScopeCore [(['i'], ['2'])] [] [(['i'], [['1']])]).1
        (pushScopeCore [(['i'], ['2'])] [] [(['i'], [['1']])]).2 =
      some ([], [(['i'], [['1']])]) :=
  claim_C8.2.2 [(['i'], ['2'])] [] [(['i'], [['1']])] (by decide) (by decide)

/-- C7: reaching end of input with an open ForStatement raises a ParserError
referencing the originating file and line of the open #for (eofForCheckM is
the check of includeFile, source lines 313-327); the concrete run of a source
whose #for lacks its #endfor fails with that error and yields no output. -/
theorem claim_C7 :
    (∀ (s : PState) (fs : ForStatement) (rest : List ForStatement) (forInput : Input),
        s.env.forStatements = fs :: rest →
        fs.inputIndex + 1 ≥ s.env.inputs.length →
        inputAtIndex s.env.inputs fs.inputIndex = some forInput →
        eofForCheckM s =
          .err (.parserEofInFor forInput.path fs.lineNumber (debugStringF s.env)) s) ∧
    processM cfg7 25 st4 = .err (.parserEofInFor root4 1 (some (root4, 2))) stR ∧
    runVal (processM cfg7 25) st4 = none := by
  refine ⟨?_, c7_run, ?_⟩
  · intro s fs rest forInput hfs hge hinp
    simp only [eofForCheckM, bind_eq_mbind, mbind, getS, hfs]
    rw [if_pos hge, hinp]
    rfl
  · simp only [runVal, c7_run]

/-- Witness for C7: the end-of-input check applied to the concrete stuck state
of the unterminated-loop run. -/
theorem claim_C7_witness :
    eofForCheckM stR = .err (.parserEofInFor root4 1 (some (root4, 2))) stR := by
  have h := claim_C7.1 stR
    { inputIndex := 0, lineNumber := 1, streamPos := 1, keyName := [], valueName := ['i'], dictionaryReference := "(Range 1 to 2)".toList, keyIndex := (0 : Int) }
    []
    { lines := ["#for i in 1..2".toList, "x".toList], pos := 2, path := root4, lineNumber := 2, indentation := [] }
    (by rfl) (by decide) (by rfl)
  exact h

/-- Spec-side form of the synthesized range dictionary: for i below
max-min+1, the key "i+1" maps to the stringified value min+i. -/
def rangeEntries (mn mx : Int) : Dict :=
  (List.range (mx - mn + 1).toNat).map
    (fun i => (natToChars (i + 1), Val.vStr (intToChars (mn + i))))

theorem charsVal_append_digit (l : List Char) (c : Char) :
    charsVal (l ++ [c]) = 10 * charsVal l + digitVal c := by
  simp [charsVal, List.foldl_append]

theorem digitVal_digitChar10 : ∀ d, d < 10 → digitVal (digitChar10 d) = d := by decide

theorem charsVal_natToCharsAux : ∀ (f n : Nat), n ≤ f →
    charsVal (natToCharsAux f n) = n := by
  intro f
  induction f with
  | zero =>
    intro n h
    have h0 : n = 0 := Nat.le_zero.mp h
    subst h0
    rfl
  | succ f ih =>
    intro n h
    cases n with
    | zero => rfl
    | succ m =>
      have h1 : (m + 1) / 10 ≤ f := by
        have := Nat.div_lt_self (Nat.succ_pos m) (by norm_num : (1 : Nat) < 10)
        omega
      show charsVal (natToCharsAux f ((m + 1) / 10) ++ [digitChar10 ((m + 1) % 10)]) = m + 1
      rw [charsVal_append_digit, ih _ h1,
        digitVal_digitChar10 _ (Nat.mod_lt _ (by norm_num))]
      omega

theorem charsVal_natToChars (n : Nat) : charsVal (natToChars n) = n := by
  by_cases h : n = 0
  · subst h; rfl
  · rw [natToChars, if_neg h]
    exact charsVal_natToCharsAux n n (le_refl n)

theorem assocSet_not_mem {α : Type} (k : List Char) (v : α) :
    ∀ (d : List (List Char × α)), k ∉ d.map Prod.fst →
    assocSet d k v = d ++ [(k, v)] := by
  intro d
  induction d with
  | nil => intro _; rfl
  | cons hd tl ih =>
    intro h
    obtain ⟨k2, v2⟩ := hd
    have hk : k2 ≠ k := by
      intro he
      exact h (by rw [List.map_cons, he]; exact List.mem_cons_self _ _)
    simp only [assocSet, if_neg hk, List.cons_append]
    rw [ih (fun hm => h (by rw [List.map_cons]; exact List.mem_cons_of_mem _ hm))]

theorem range_foldl_assocSet (mn : Int) : ∀ (N : Nat),
    (List.range N).foldl
        (fun d i => assocSet d (natToChars (i + 1)) (Val.vStr (intToChars (mn + i)))) [] =
      (List.range N).map (fun i => (natToChars (i + 1), Val.vStr (intToChars (mn + i)))) := by
  intro N
  induction N with
  | zero => rfl
  | succ N ih =>
    have hfresh : natToChars (N + 1) ∉
        ((List.range N).map
          (fun i => (natToChars (i + 1), Val.vStr (intToChars (mn + i))))).map Prod.fst := by
      intro hmem
      obtain ⟨p, hp, hfst⟩ := List.mem_map.mp hmem
      obtain ⟨i, hi, hpe⟩ := List.mem_map.mp hp
      subst hpe
      have hfst2 : natToChars (i + 1) = natToChars (N + 1) := hfst
      have h2 := congrArg charsVal hfst2
      rw [charsVal_natToChars, charsVal_natToChars] at h2
      have := List.mem_range.mp hi
      omega
    rw [List.range_succ, List.foldl_append, List.map_append, ih]
    show assocSet
        ((List.range N).map (fun i => (natToChars (i + 1), Val.vStr (intToChars (mn + i)))))
        (natToChars (N + 1)) (Val.vStr (intToChars (mn + N))) = _
    rw [assocSet_not_mem (natToChars (N + 1)) (Val.vStr (intToChars (mn + N))) _ hfresh]
    rfl

theorem parseRangeCore_spec (name : List Char) (mn mx : Int) (d : Dict)
    (h : parseRangeCore name = .ok (mn, mx, d)) : d = rangeEntries mn mx := by
  simp only [parseRangeCore] at h
  cases hf : findSubIdx ("..".toList) name with
  | none =>
    simp only [hf] at h
    exact Except.noConfusion h
  | some minEnd =>
    simp only [hf] at h
    cases hm : stoiCore (name.take minEnd) with
    | none =>
      simp only [hm] at h
      exact Except.noConfusion h
    | some mn2 =>
      simp only [hm] at h
      cases hx : stoiCore (name.drop (minEnd + 2)) with
      | none =>
        simp only [hx] at h
        exact Except.noConfusion h
      | some mx2 =>
        simp only [hx, Except.ok.injEq, Prod.mk.injEq] at h
        obtain ⟨h1, h2, h3⟩ := h
        subst h1
        subst h2
        rw [← h3, rangeEntries]
        exact range_foldl_assocSet _ _

/-- C4: a keyless #for treats its dictionary-reference text as an integer
range min..max: parseRange synthesizes a Dictionary binding keys "1" through
"max-min+1" to the stringified values min through max (parseRangeCore with
rangeEntries); parseFor stores it under the synthetic name "(Range min to
max)" (rangeName); and the concrete run of '#for i in 3..5' over body token i
expands the body three times yielding "3", "4", "5" in order, with the
synthesized dictionary stored under "(Range 3 to 5)". -/
theorem claim_C4 :
    (∀ (name : List Char) (mn mx : Int) (d : Dict),
        parseRangeCore name = .ok (mn, mx, d) → d = rangeEntries mn mx) ∧
    rangeName 3 5 = "(Range 3 to 5)".toList ∧
    processM cfg4 25 st4 = .ok stJ.env.output stJ ∧
    srcLines stJ.env.output = ["3".toList, "4".toList, "5".toList] ∧
    assocGet stJ.dictionary (rangeName 3 5) = some (Val.vDict (rangeEntries 3 5)) := by
  refine ⟨parseRangeCore_spec, by rfl, c4_run, by rfl, by rfl⟩

/-- Witness for C4: parseRange on the concrete text 3..5 produces exactly the
three-entry dictionary described by rangeEntries. -/
theorem claim_C4_witness :
    parseRangeCore ("3..5".toList) =
      .ok (3, 5, [("1".toList, Val.vStr ("3".toList)), ("2".toList, Val.vStr ("4".toList)),
        ("3".toList, Val.vStr ("5".toList))]) ∧
    [("1".toList, Val.vStr ("3".toList)), ("2".toList, Val.vStr ("4".toList)),
        ("3".toList, Val.vStr ("5".toList))] = rangeEntries 3 5 :=
  ⟨by rfl, claim_C4.1 ("3..5".toList) 3 5 _ (by rfl)⟩

/-- The run of a Proc leaves the File Identity Registry exactly unchanged. -/
def FilesEq {α : Type} (m : Proc α) : Prop :=
  ∀ s : PState, (runState m s).includedFiles = s.includedFiles

/-- The run of a Proc only appends to the File Identity Registry, whether it
succeeds or throws. -/
def FilesMono {α : Type} (m : Proc α) : Prop :=
  ∀ s : PState, ∃ t, (runState m s).includedFiles = s.includedFiles ++ t

theorem runState_mbind {α β : Type} (x : Proc α) (f : α → Proc β) (s : PState) :
    runState (mbind x f) s =
      match x s with
      | .ok a s2 => runState (f a) s2
      | .err _ s2 => s2 := by
  show (match (match x s with | .ok a s2 => f a s2 | .err e s2 => MRes.err e s2) with
        | .ok _ s2 => s2 | .err _ s2 => s2) = _
  cases x s with
  | ok a s2 => rfl
  | err e s2 => rfl

theorem filesEq_mpure {α : Type} (a : α) : FilesEq (mpure a) := fun _ => rfl

theorem filesEq_mthrow {α : Type} (e : Err) : FilesEq (mthrow e : Proc α) := fun _ => rfl

theorem filesEq_getS : FilesEq getS := fun _ => rfl

theorem filesEq_modifyEnvS (f : Env → Env) : FilesEq (modifyEnvS f) := fun _ => rfl

theorem filesEq_emitS (item : OutItem) : FilesEq (emitS item) := fun _ => rfl

theorem filesMono_of_filesEq {α : Type} {m : Proc α} (h : FilesEq m) : FilesMono m :=
  fun s => ⟨[], by rw [List.append_nil]; exact h s⟩

theorem filesEq_mbind {α β : Type} {x : Proc α} {f : α → Proc β}
    (hx : FilesEq x) (hf : ∀ a, FilesEq (f a)) : FilesEq (mbind x f) := by
  intro s
  rw [runState_mbind]
  cases hxs : x s with
  | ok a s2 =>
    have hx1 := hx s
    simp only [runState, hxs] at hx1
    rw [hf a s2, hx1]
  | err e s2 =>
    have hx1 := hx s
    simp only [runState, hxs] at hx1
    exact hx1

theorem filesMono_mbind {α β : Type} {x : Proc α} {f : α → Proc β}
    (hx : FilesMono x) (hf : ∀ a, FilesMono (f a)) : FilesMono (mbind x f) := by
  intro s
  rw [runState_mbind]
  cases hxs : x s with
  | ok a s2 =>
    obtain ⟨t1, ht1⟩ := hx s
    simp only [runState, hxs] at ht1
    obtain ⟨t2, ht2⟩ := hf a s2
    exact ⟨t1 ++ t2, by rw [ht2, ht1, List.append_assoc]⟩
  | err e s2 =>
    obtain ⟨t1, ht1⟩ := hx s
    simp only [runState, hxs] at ht1
    exact ⟨t1, ht1⟩

theorem filesEq_pushScopeM (table : List (List Char × List Char)) :
    FilesEq (pushScopeM table) := fun _ => rfl

theorem filesEq_popScopeM : FilesEq popScopeM := by
  simp only [popScopeM, bind_eq_mbind]
  apply filesEq_mbind filesEq_getS
  intro s
  cases popScopeCore s.env.scopes s.env.aliases with
  | none => exact filesEq_mthrow _
  | some p => exact filesEq_modifyEnvS _

theorem filesEq_substituteLineM (n : Nat) : FilesEq (substituteLineM n) := by
  simp only [substituteLineM, bind_eq_mbind]
  apply filesEq_mbind filesEq_getS
  intro s
  cases substituteLineCore (substituteTok s.dictionary s.env.aliases (debugStringF s.env))
      (debugStringF s.env) n s.env.line with
  | error e => exact filesEq_mthrow _
  | ok line2 =>
    exact filesEq_mbind (filesEq_modifyEnvS _) (fun _ => filesEq_mpure _)

theorem filesEq_parseVersionM (cfg : Config) : FilesEq (parseVersionM cfg) := by
  simp only [parseVersionM, bind_eq_mbind]
  apply filesEq_mbind filesEq_getS
  intro s
  by_cases h : ("#version __CONTEXT__".toList).isPrefixOf s.env.line
  · rw [if_pos h]
    exact filesEq_mbind (filesEq_emitS _) (fun _ => filesEq_mpure _)
  · rw [if_neg h]
    exact filesEq_mpure _

theorem filesEq_addLineNumberM : FilesEq addLineNumberM := by
  simp only [addLineNumberM, bind_eq_mbind]
  apply filesEq_mbind filesEq_getS
  intro s
  cases s.env.inputs with
  | nil => exact filesEq_mthrow _
  | cons inp rest =>
    show FilesEq (match assocGet s.includedFiles inp.path with
      | none => mthrow Err.invariantViolation
      | some fr => emitS (OutItem.lineMarker inp.lineNumber fr.fileIdentifier inp.path))
    cases assocGet s.includedFiles inp.path with
    | none => exact filesEq_mthrow _
    | some fr => exact filesEq_emitS _

theorem filesEq_parseOsM (cfg : Config) : FilesEq (parseOsM cfg) := by
  simp only [parseOsM, bind_eq_mbind]
  apply filesEq_mbind filesEq_getS
  intro s
  by_cases h : ("#define __OS__".toList).isPrefixOf s.env.line
  · rw [if_pos h]
    exact filesEq_mbind (filesEq_emitS _)
      (fun _ => filesEq_mbind filesEq_addLineNumberM (fun _ => filesEq_mpure _))
  · rw [if_neg h]
    exact filesEq_mpure _

theorem filesEq_eofForCheckM : FilesEq eofForCheckM := by
  simp only [eofForCheckM, bind_eq_mbind]
  apply filesEq_mbind filesEq_getS
  intro s
  cases s.env.forStatements with
  | nil => exact filesEq_mpure _
  | cons fs rest =>
    show FilesEq (if fs.inputIndex + 1 ≥ s.env.inputs.length then
        match inputAtIndex s.env.inputs fs.inputIndex with
        | none => mthrow Err.invariantViolation
        | some forInput =>
          mthrow (Err.parserEofInFor forInput.path fs.lineNumber (debugStringF s.env))
      else mpure ())
    by_cases h : fs.inputIndex + 1 ≥ s.env.inputs.length
    · rw [if_pos h]
      cases inputAtIndex s.env.inputs fs.inputIndex with
      | none => exact filesEq_mthrow _
      | some forInput => exact filesEq_mthrow _
    · rw [if_neg h]
      exact filesEq_mpure _

theorem filesEq_modifyS_of (f : PState → PState)
    (h : ∀ s, (f s).includedFiles = s.includedFiles) : FilesEq (modifyS f) :=
  fun s => h s

theorem filesEq_parseEndForM : FilesEq parseEndForM := by
  simp only [parseEndForM, bind_eq_mbind]
  apply filesEq_mbind filesEq_getS
  intro s
  split
  · exact filesEq_mpure _
  · split
    · exact filesEq_mthrow _
    · split
      · apply filesEq_mbind (filesEq_modifyEnvS _)
        intro _
        split
        · exact filesEq_mthrow _
        · exact filesEq_mthrow _
      · apply filesEq_mbind filesEq_popScopeM
        intro _
        apply filesEq_mbind (filesEq_modifyEnvS _)
        intro _
        apply filesEq_mbind filesEq_getS
        intro s2
        split
        · exact filesEq_mthrow _
        · split
          · split
            · exact filesEq_mthrow _
            · apply filesEq_mbind (filesEq_pushScopeM _)
              intro _
              apply filesEq_mbind (filesEq_emitS _)
              intro _
              apply filesEq_mbind filesEq_addLineNumberM
              intro _
              apply filesEq_mbind (filesEq_modifyEnvS _)
              intro _
              exact filesEq_mpure _
          · apply filesEq_mbind (filesEq_emitS _)
            intro _
            apply filesEq_mbind filesEq_addLineNumberM
            intro _
            apply filesEq_mbind (filesEq_modifyEnvS _)
            intro _
            exact filesEq_mpure _

theorem filesEq_parseForM : FilesEq parseForM := by
  simp only [parseForM, bind_eq_mbind]
  apply filesEq_mbind filesEq_getS
  intro s
  split
  · exact filesEq_mthrow _
  · exact filesEq_mpure _
  · split
    · split
      · refine filesEq_mbind (filesEq_mthrow _) (fun y => ?_)
        refine filesEq_mbind filesEq_getS (fun s2 => ?_)
        split
        · exact filesEq_mthrow _
        · split
          · exact filesEq_mthrow _
          · split
            · exact filesEq_mthrow _
            · split
              · refine filesEq_mbind (filesEq_emitS _) (fun _ => ?_)
                refine filesEq_mbind (filesEq_emitS _) (fun _ => ?_)
                refine filesEq_mbind filesEq_addLineNumberM (fun _ => ?_)
                refine filesEq_mbind (filesEq_pushScopeM _) (fun _ => ?_)
                refine filesEq_mbind (filesEq_modifyEnvS _) (fun _ => ?_)
                exact filesEq_mpure _
              · refine filesEq_mbind (filesEq_emitS _) (fun _ => ?_)
                refine filesEq_mbind (filesEq_pushScopeM _) (fun _ => ?_)
                refine filesEq_mbind (filesEq_modifyEnvS _) (fun _ => ?_)
                exact filesEq_mpure _
      · refine filesEq_mbind (filesEq_modifyS_of _ ?_) (fun _ => ?_)
        · intro st; rfl
        · refine filesEq_mbind (filesEq_mpure _) (fun y => ?_)
          refine filesEq_mbind filesEq_getS (fun s2 => ?_)
          split
          · exact filesEq_mthrow _
          · split
            · exact filesEq_mthrow _
            · split
              · exact filesEq_mthrow _
              · split
                · refine filesEq_mbind (filesEq_emitS _) (fun _ => ?_)
                  refine filesEq_mbind (filesEq_emitS _) (fun _ => ?_)
                  refine filesEq_mbind filesEq_addLineNumberM (fun _ => ?_)
                  refine filesEq_mbind (filesEq_pushScopeM _) (fun _ => ?_)
                  refine filesEq_mbind (filesEq_modifyEnvS _) (fun _ => ?_)
                  exact filesEq_mpure _
                · refine filesEq_mbind (filesEq_emitS _) (fun _ => ?_)
                  refine filesEq_mbind (filesEq_pushScopeM _) (fun _ => ?_)
                  refine filesEq_mbind (filesEq_modifyEnvS _) (fun _ => ?_)
                  exact filesEq_mpure _
    · refine filesEq_mbind (filesEq_mpure _) (fun y => ?_)
      refine filesEq_mbind filesEq_getS (fun s2 => ?_)
      split
      · exact filesEq_mthrow _
      · split
        · exact filesEq_mthrow _
        · split
          · exact filesEq_mthrow _
          · split
            · refine filesEq_mbind (filesEq_emitS _) (fun _ => ?_)
              refine filesEq_mbind (filesEq_emitS _) (fun _ => ?_)
              refine filesEq_mbind filesEq_addLineNumberM (fun _ => ?_)
              refine filesEq_mbind (filesEq_pushScopeM _) (fun _ => ?_)
              refine filesEq_mbind (filesEq_modifyEnvS _) (fun _ => ?_)
              exact filesEq_mpure _
            · refine filesEq_mbind (filesEq_emitS _) (fun _ => ?_)
              refine filesEq_mbind (filesEq_pushScopeM _) (fun _ => ?_)
              refine filesEq_mbind (filesEq_modifyEnvS _) (fun _ => ?_)
              exact filesEq_mpure _

theorem filesEq_includeFilePost : FilesEq includeFilePost := by
  simp only [includeFilePost, bind_eq_mbind]
  apply filesEq_mbind filesEq_eofForCheckM
  intro _
  apply filesEq_mbind (filesEq_modifyEnvS _)
  intro _
  apply filesEq_mbind filesEq_getS
  intro s3
  split
  · exact filesEq_mbind filesEq_addLineNumberM (fun _ => filesEq_mpure _)
  · exact filesEq_mbind (filesEq_mpure _) (fun _ => filesEq_mpure _)

theorem registerFileM_new (path : List Char) (track : Bool) (s : PState)
    (h : assocGet s.includedFiles path = none) :
    registerFileM path track s = .ok () { s with includedFiles := s.includedFiles ++
      [(path, { fileIdentifier := s.includedFiles.length, isTracked := track })] } := by
  have h2 : (assocGet s.includedFiles path).isNone = true := by rw [h]; rfl
  simp only [registerFileM, bind_eq_mbind, mbind, getS]
  rw [if_pos h2]
  rfl

theorem registerFileM_old (path : List Char) (track : Bool) (s : PState) (fr : FileRec)
    (h : assocGet s.includedFiles path = some fr) :
    registerFileM path track s = .ok () s := by
  have h2 : ¬ (assocGet s.includedFiles path).isNone = true := by
    rw [h]
    exact fun hc => Bool.noConfusion hc
  simp only [registerFileM, bind_eq_mbind, mbind, getS]
  rw [if_neg h2]
  rfl

theorem filesMono_registerFileM (path : List Char) (track : Bool) :
    FilesMono (registerFileM path track) := by
  intro s
  cases hi : assocGet s.includedFiles path with
  | none =>
    refine ⟨[(path, { fileIdentifier := s.includedFiles.length, isTracked := track })], ?_⟩
    simp only [runState, registerFileM_new path track s hi]
  | some fr =>
    refine ⟨[], ?_⟩
    simp only [runState, registerFileM_old path track s fr hi, List.append_nil]

theorem filesMono_includeFilePre (path : List Char) (track : Bool)
    (lines : List (List Char)) : FilesMono (includeFilePre path track lines) := by
  simp only [includeFilePre, bind_eq_mbind]
  refine filesMono_mbind (filesMono_registerFileM path track) (fun _ => ?_)
  refine filesMono_mbind (filesMono_of_filesEq filesEq_getS) (fun s1 => ?_)
  refine filesMono_mbind (filesMono_of_filesEq (filesEq_modifyEnvS _)) (fun _ => ?_)
  refine filesMono_mbind (filesMono_of_filesEq filesEq_getS) (fun s2 => ?_)
  split
  · exact filesMono_of_filesEq filesEq_addLineNumberM
  · exact filesMono_of_filesEq (filesEq_mpure _)

theorem filesMono_machineStep (cfg : Config) (n : Nat) (recurse : MCall → Proc Bool)
    (hrec : ∀ c, FilesMono (recurse c)) : ∀ c, FilesMono (machineStep cfg n recurse c) := by
  intro c
  cases c with
  | pline =>
    simp only [machineStep, bind_eq_mbind]
    apply filesMono_mbind (filesMono_of_filesEq filesEq_getS)
    intro s
    split
    · exact filesMono_of_filesEq (filesEq_mthrow _)
    · split
      · exact filesMono_of_filesEq (filesEq_mpure _)
      · refine filesMono_mbind (filesMono_of_filesEq (filesEq_modifyEnvS _)) (fun _ => ?_)
        refine filesMono_mbind (filesMono_of_filesEq filesEq_parseEndForM) (fun isSpecial1 => ?_)
        refine filesMono_mbind (filesMono_of_filesEq filesEq_getS) (fun s2 => ?_)
        split
        · exact filesMono_of_filesEq (filesEq_mpure _)
        · refine filesMono_mbind (filesMono_of_filesEq (filesEq_substituteLineM _)) (fun _ => ?_)
          split
          · refine filesMono_mbind (filesMono_of_filesEq (filesEq_mpure _)) (fun isp => ?_)
            split
            · exact filesMono_of_filesEq (filesEq_mpure _)
            · refine filesMono_mbind (filesMono_of_filesEq filesEq_getS) (fun s3 => ?_)
              split
              · exact filesMono_of_filesEq (filesEq_mthrow _)
              · exact filesMono_of_filesEq (filesEq_mbind (filesEq_emitS _) (fun _ => filesEq_mpure _))
          · refine filesMono_mbind (filesMono_of_filesEq (filesEq_parseVersionM _)) (fun v => ?_)
            split
            · refine filesMono_mbind (filesMono_of_filesEq (filesEq_mpure _)) (fun isp => ?_)
              split
              · exact filesMono_of_filesEq (filesEq_mpure _)
              · refine filesMono_mbind (filesMono_of_filesEq filesEq_getS) (fun s3 => ?_)
                split
                · exact filesMono_of_filesEq (filesEq_mthrow _)
                · exact filesMono_of_filesEq (filesEq_mbind (filesEq_emitS _) (fun _ => filesEq_mpure _))
            · refine filesMono_mbind (filesMono_of_filesEq (filesEq_parseOsM _)) (fun o => ?_)
              split
              · refine filesMono_mbind (filesMono_of_filesEq (filesEq_mpure _)) (fun isp => ?_)
                split
                · exact filesMono_of_filesEq (filesEq_mpure _)
                · refine filesMono_mbind (filesMono_of_filesEq filesEq_getS) (fun s3 => ?_)
                  split
                  · exact filesMono_of_filesEq (filesEq_mthrow _)
                  · exact filesMono_of_filesEq (filesEq_mbind (filesEq_emitS _) (fun _ => filesEq_mpure _))
              · refine filesMono_mbind (hrec _) (fun i => ?_)
                split
                · refine filesMono_mbind (filesMono_of_filesEq (filesEq_mpure _)) (fun isp => ?_)
                  split
                  · exact filesMono_of_filesEq (filesEq_mpure _)
                  · refine filesMono_mbind (filesMono_of_filesEq filesEq_getS) (fun s3 => ?_)
                    split
                    · exact filesMono_of_filesEq (filesEq_mthrow _)
                    · exact filesMono_of_filesEq (filesEq_mbind (filesEq_emitS _) (fun _ => filesEq_mpure _))
                · refine filesMono_mbind (filesMono_of_filesEq filesEq_parseForM) (fun isp => ?_)
                  split
                  · exact filesMono_of_filesEq (filesEq_mpure _)
                  · refine filesMono_mbind (filesMono_of_filesEq filesEq_getS) (fun s3 => ?_)
                    split
                    · exact filesMono_of_filesEq (filesEq_mthrow _)
                    · exact filesMono_of_filesEq (filesEq_mbind (filesEq_emitS _) (fun _ => filesEq_mpure _))
  | pinclude =>
    simp only [machineStep, bind_eq_mbind]
    apply filesMono_mbind (filesMono_of_filesEq filesEq_getS)
    intro s
    split
    · exact filesMono_of_filesEq (filesEq_mpure _)
    · split
      · exact filesMono_of_filesEq (filesEq_mthrow _)
      · split
        · exact filesMono_of_filesEq (filesEq_mthrow _)
        · split
          · split
            · exact filesMono_of_filesEq (filesEq_mthrow _)
            · split
              · exact filesMono_of_filesEq (filesEq_mthrow _)
              · split
                · exact filesMono_of_filesEq (filesEq_mthrow _)
                · exact filesMono_mbind (hrec _) (fun _ => filesMono_of_filesEq (filesEq_mpure _))
          · split
            · split
              · exact filesMono_of_filesEq (filesEq_mthrow _)
              · exact filesMono_mbind (hrec _) (fun _ => filesMono_of_filesEq (filesEq_mpure _))
            · exact filesMono_of_filesEq (filesEq_mthrow _)
  | plines path =>
    simp only [machineStep, bind_eq_mbind]
    refine filesMono_mbind (hrec _) (fun b => ?_)
    split
    · refine filesMono_mbind (filesMono_of_filesEq filesEq_getS) (fun s => ?_)
      split
      · split
        · exact filesMono_of_filesEq (filesEq_mthrow _)
        · exact filesMono_of_filesEq (filesEq_mthrow _)
      · exact hrec _
    · exact filesMono_of_filesEq (filesEq_mpure _)
  | pincludeFile path track =>
    simp only [machineStep, bind_eq_mbind]
    split
    · exact filesMono_of_filesEq (filesEq_mthrow _)
    · split
      · exact filesMono_of_filesEq (filesEq_mthrow _)
      · refine filesMono_mbind (filesMono_includeFilePre _ _ _) (fun _ => ?_)
        exact filesMono_mbind (hrec _) (fun _ => filesMono_of_filesEq filesEq_includeFilePost)

theorem filesMono_machineRun (cfg : Config) : ∀ (fuel : Nat) (c : MCall),
    FilesMono (machineRun cfg fuel c) := by
  intro fuel
  induction fuel with
  | zero => intro c; exact filesMono_of_filesEq (filesEq_mthrow _)
  | succ n ih => intro c; exact filesMono_machineStep cfg n (machineRun cfg n) ih c

theorem filesMono_processM (cfg : Config) (fuel : Nat) : FilesMono (processM cfg fuel) := by
  simp only [processM, includeFileM, bind_eq_mbind]
  refine filesMono_mbind (filesMono_of_filesEq (filesEq_modifyS_of _ ?_)) (fun _ => ?_)
  · intro st; rfl
  apply filesMono_mbind (filesMono_of_filesEq filesEq_getS)
  intro s0
  apply filesMono_mbind
  · apply filesMono_mbind (filesMono_machineRun cfg fuel _)
    intro _
    exact filesMono_of_filesEq (filesEq_mpure _)
  · intro _
    apply filesMono_mbind (filesMono_of_filesEq filesEq_getS)
    intro s
    split
    · exact filesMono_of_filesEq (filesEq_mthrow _)
    · split
      · exact filesMono_of_filesEq (filesEq_mthrow _)
      · exact filesMono_of_filesEq (filesEq_mpure _)

theorem assocGet_append_some {α : Type} (k : List Char) (v : α) :
    ∀ (l t : List (List Char × α)), assocGet l k = some v →
    assocGet (l ++ t) k = some v := by
  intro l
  induction l with
  | nil => intro t h; exact Option.noConfusion h
  | cons hd tl ih =>
    intro t h
    obtain ⟨k2, v2⟩ := hd
    by_cases hk : k2 = k
    · simp only [assocGet, if_pos hk] at h ⊢
      exact h
    · simp only [assocGet, if_neg hk] at h ⊢
      exact ih t h

/-- C9: the File Identity Registry only grows.  A path not yet registered is
appended by registerFileM with the next 0-based identifier (the current
registry size); an already registered path leaves the registry and state
untouched, reusing the stored entry; appending never disturbs an existing
lookup, so identifiers are stable; and every machine run and every process()
run only appends to the registry, whether it succeeds or throws — in
particular the registry persists and grows across repeated process() calls
on the same state. -/
theorem claim_C9 :
    (∀ (path : List Char) (track : Bool) (s : PState),
        assocGet s.includedFiles path = none →
        registerFileM path track s = .ok () { s with includedFiles := s.includedFiles ++
          [(path, { fileIdentifier := s.includedFiles.length, isTracked := track })] }) ∧
    (∀ (path : List Char) (track : Bool) (s : PState) (fr : FileRec),
        assocGet s.includedFiles path = some fr →
        registerFileM path track s = .ok () s) ∧
    (∀ (k : List Char) (v : FileRec) (l t : List (List Char × FileRec)),
        assocGet l k = some v → assocGet (l ++ t) k = some v) ∧
    (∀ (cfg : Config) (fuel : Nat) (c : MCall) (s : PState),
        ∃ t, (runState (machineRun cfg fuel c) s).includedFiles = s.includedFiles ++ t) ∧
    (∀ (cfg : Config) (fuel : Nat) (s : PState),
        ∃ t, (runState (processM cfg fuel) s).includedFiles = s.includedFiles ++ t) :=
  ⟨registerFileM_new, registerFileM_old, assocGet_append_some,
    fun cfg fuel c s => filesMono_machineRun cfg fuel c s,
    fun cfg fuel s => filesMono_processM cfg fuel s⟩

/-- Witness for C9: registering a fresh path in an empty registry appends it
with identifier 0, and registering it again leaves the state unchanged. -/
theorem claim_C9_witness :
    registerFileM ['a'] true
        { shaderPath := [], dictionary := [], includedFiles := [],
          callbackRegistered := false, env := emptyEnv } =
      .ok () { shaderPath := [], dictionary := [],
               includedFiles := [(['a'], { fileIdentifier := 0, isTracked := true })],
               callbackRegistered := false, env := emptyEnv } ∧
    registerFileM ['a'] false
        { shaderPath := [], dictionary := [],
          includedFiles := [(['a'], { fileIdentifier := 0, isTracked := true })],
          callbackRegistered := false, env := emptyEnv } =
      .ok () { shaderPath := [], dictionary := [],
               includedFiles := [(['a'], { fileIdentifier := 0, isTracked := true })],
               callbackRegistered := false, env := emptyEnv } :=
  ⟨claim_C9.1 ['a'] true _ (by rfl),
   claim_C9.2.1 ['a'] false _ { fileIdentifier := 0, isTracked := true } (by rfl)⟩
